import Mathlib

/-!
Verification development for the WeasyPrint box-tree core (`weasy/boxes.py`):
the box model, `dom_to_box`, `inline_in_block`, and `block_in_inline`.

Python classes become a closed inductive type; in-place mutation becomes
explicit rebuilding where the pass is structurally recursive
(`inline_in_block`); Python exceptions become `Except`.  The mutating
recursion of `block_in_inline` works through `parent` pointers, iterates
children lists while they are mutated, and reassigns `children`
attributes to fresh list objects while old loops keep iterating the
stale objects — so it is embedded as a fuel-indexed interpreter over an
explicit object store (nodes with parent pointers, children-list objects
as separate store references), transcribed statement by statement from
the source.
-/

namespace Weasy

/-- The box variants of `boxes.py`: `BlockLevelBox`, `AnonymousBlockLevelBox`
(a subclass of `BlockLevelBox`), `LineBox`, `InlineLevelBox`, `TextBox`.
`α` is the type of source elements (the `box.element` back-reference);
`TextBox` additionally stores its literal text and has no children
(`self.children = None` in the source). -/
inductive Box (α : Type) where
  | block (el : α) (kids : List (Box α))
  | anon  (el : α) (kids : List (Box α))
  | line  (el : α) (kids : List (Box α))
  | inl   (el : α) (kids : List (Box α))
  | text  (el : α) (s : String)

mutual

/-- Decidable structural equality on box trees. -/
def Box.decEqB {α : Type} [DecidableEq α] : (a b : Box α) → Decidable (a = b)
  | .block e cs, .block f ds =>
      if h1 : e = f then
        match Box.decEqListB cs ds with
        | isTrue h2 => isTrue (by rw [h1, h2])
        | isFalse h2 => isFalse (fun h => by cases h; exact h2 rfl)
      else isFalse (fun h => by cases h; exact h1 rfl)
  | .anon e cs, .anon f ds =>
      if h1 : e = f then
        match Box.decEqListB cs ds with
        | isTrue h2 => isTrue (by rw [h1, h2])
        | isFalse h2 => isFalse (fun h => by cases h; exact h2 rfl)
      else isFalse (fun h => by cases h; exact h1 rfl)
  | .line e cs, .line f ds =>
      if h1 : e = f then
        match Box.decEqListB cs ds with
        | isTrue h2 => isTrue (by rw [h1, h2])
        | isFalse h2 => isFalse (fun h => by cases h; exact h2 rfl)
      else isFalse (fun h => by cases h; exact h1 rfl)
  | .inl e cs, .inl f ds =>
      if h1 : e = f then
        match Box.decEqListB cs ds with
        | isTrue h2 => isTrue (by rw [h1, h2])
        | isFalse h2 => isFalse (fun h => by cases h; exact h2 rfl)
      else isFalse (fun h => by cases h; exact h1 rfl)
  | .text e s, .text f t =>
      if h1 : e = f then
        if h2 : s = t then isTrue (by rw [h1, h2])
        else isFalse (fun h => by cases h; exact h2 rfl)
      else isFalse (fun h => by cases h; exact h1 rfl)
  | .block _ _, .anon _ _ | .block _ _, .line _ _ | .block _ _, .inl _ _
  | .block _ _, .text _ _ | .anon _ _, .block _ _ | .anon _ _, .line _ _
  | .anon _ _, .inl _ _ | .anon _ _, .text _ _ | .line _ _, .block _ _
  | .line _ _, .anon _ _ | .line _ _, .inl _ _ | .line _ _, .text _ _
  | .inl _ _, .block _ _ | .inl _ _, .anon _ _ | .inl _ _, .line _ _
  | .inl _ _, .text _ _ | .text _ _, .block _ _ | .text _ _, .anon _ _
  | .text _ _, .line _ _ | .text _ _, .inl _ _ =>
      isFalse (fun h => Box.noConfusion h)

/-- Decidable structural equality on box forests. -/
def Box.decEqListB {α : Type} [DecidableEq α] :
    (as bs : List (Box α)) → Decidable (as = bs)
  | [], [] => isTrue rfl
  | [], _ :: _ => isFalse (fun h => List.noConfusion h)
  | _ :: _, [] => isFalse (fun h => List.noConfusion h)
  | a :: as, b :: bs =>
      match Box.decEqB a b, Box.decEqListB as bs with
      | isTrue h1, isTrue h2 => isTrue (by rw [h1, h2])
      | isFalse h1, _ => isFalse (fun h => by cases h; exact h1 rfl)
      | _, isFalse h2 => isFalse (fun h => by cases h; exact h2 rfl)

end

instance {α : Type} [DecidableEq α] : DecidableEq (Box α) := Box.decEqB

instance {ε α : Type} [DecidableEq ε] [DecidableEq α] :
    DecidableEq (Except ε α) := fun x y =>
  match x, y with
  | .ok a, .ok b =>
      if h : a = b then isTrue (by rw [h]) else isFalse (by simp [h])
  | .error e, .error f =>
      if h : e = f then isTrue (by rw [h]) else isFalse (by simp [h])
  | .ok _, .error _ => isFalse (by simp)
  | .error _, .ok _ => isFalse (by simp)

/-- `isinstance(box, BlockLevelBox)`: true for `BlockLevelBox` and its
subclass `AnonymousBlockLevelBox`. -/
def Box.blockLevel {α : Type} : Box α → Bool
  | .block _ _ => true
  | .anon _ _ => true
  | _ => false

/-- `isinstance(box, AnonymousBlockLevelBox)`. -/
def Box.isAnon {α : Type} : Box α → Bool
  | .anon _ _ => true
  | _ => false

/-- `isinstance(box, LineBox)`. -/
def Box.isLineB {α : Type} : Box α → Bool
  | .line _ _ => true
  | _ => false

/-- `isinstance(box, InlineLevelBox)`. -/
def Box.isInlineB {α : Type} : Box α → Bool
  | .inl _ _ => true
  | _ => false

/-- `isinstance(box, TextBox)`. -/
def Box.isTextB {α : Type} : Box α → Bool
  | .text _ _ => true
  | _ => false

/-- `box.element`. -/
def Box.el {α : Type} : Box α → α
  | .block e _ => e
  | .anon e _ => e
  | .line e _ => e
  | .inl e _ => e
  | .text e _ => e

/-- `box.children` (`[]` for a `TextBox`, whose `children` is `None`; every
loop in the source iterates `box.children or []`). -/
def Box.kids {α : Type} : Box α → List (Box α)
  | .block _ cs => cs
  | .anon _ cs => cs
  | .line _ cs => cs
  | .inl _ cs => cs
  | .text _ _ => []

mutual

/-- All boxes of a subtree, root first, children in document order
(pre-order traversal). -/
def subboxes {α : Type} : Box α → List (Box α)
  | .block e cs => .block e cs :: subboxesList cs
  | .anon e cs => .anon e cs :: subboxesList cs
  | .line e cs => .line e cs :: subboxesList cs
  | .inl e cs => .inl e cs :: subboxesList cs
  | .text e s => [.text e s]

/-- All boxes of a forest, in document order. -/
def subboxesList {α : Type} : List (Box α) → List (Box α)
  | [] => []
  | c :: cs => subboxes c ++ subboxesList cs

end

/-- Strict descendants of a box. -/
def descendants {α : Type} (b : Box α) : List (Box α) :=
  subboxesList b.kids

/-- The children shape that `inline_in_block` establishes for every
block-level box: either exactly one `LineBox` child, or only block-level
children (possibly none). -/
def shapeOK {α : Type} : List (Box α) → Bool
  | [.line _ _] => true
  | cs => cs.all Box.blockLevel

/-- Every block-level box in the tree has `shapeOK` children: the
invariant claimed for the output of `inline_in_block`, and the claimed
precondition of `block_in_inline` ("post-normalization invariant"). -/
def blocksNormalized {α : Type} (b : Box α) : Bool :=
  (subboxes b).all fun x => !x.blockLevel || shapeOK x.kids

/-- Some `InlineLevelBox` of the tree has a block-level box
(`BlockLevelBox` or `AnonymousBlockLevelBox`) somewhere in its subtree. -/
def hasInlineOverBlock {α : Type} (b : Box α) : Bool :=
  (subboxes b).any fun x => x.isInlineB && (descendants x).any Box.blockLevel

/-- No `LineBox` of the tree has another `LineBox` in its subtree. -/
def noNestedLine {α : Type} (b : Box α) : Bool :=
  (subboxes b).all fun x => !x.isLineB || (descendants x).all fun y => !y.isLineB

/-- The tree contains no `AnonymousBlockLevelBox` at all. -/
def noAnon {α : Type} (b : Box α) : Bool :=
  (subboxes b).all fun x => !x.isAnon

/-- Every `AnonymousBlockLevelBox` in the tree has exactly one child,
and that child is a `LineBox`. -/
def anonsOK {α : Type} (b : Box α) : Bool :=
  (subboxes b).all fun x =>
    !x.isAnon || (match x.kids with
      | [.line _ _] => true
      | _ => false)

/-- The text runs of the tree's `TextBox` leaves, left to right. -/
def textLeaves {α : Type} (b : Box α) : List String :=
  (subboxes b).filterMap fun x =>
    match x with
    | .text _ s => some s
    | _ => none

/-- No box of the tree triggers the split surgery of `block_in_inline`:
no `InlineLevelBox` has a block-level box among its direct children
(the trigger condition is `isinstance(box, BlockLevelBox)` and
`box.parent` an `InlineLevelBox`). -/
def triggerFree {α : Type} (b : Box α) : Bool :=
  (subboxes b).all fun x => !x.isInlineB || x.kids.all fun c => !c.blockLevel

/-- Failure of `inline_in_block`: the `assert not isinstance(child_box,
LineBox)` on a child of a block-level box being rebuilt. -/
inductive NormErr where
  | nestedLineBox
deriving DecidableEq, Repr

/-- Rebuild a block-level box of the same dynamic class (`BlockLevelBox`
or `AnonymousBlockLevelBox`) around new children. -/
def mkBlk {α : Type} (isAnonymous : Bool) (e : α) (cs : List (Box α)) : Box α :=
  if isAnonymous then .anon e cs else .block e cs

/-- The child loop of `inline_in_block` on a block-level box that is not
already normalized: `acc` is the current `LineBox(box.element)`
accumulator's children, `out` the new `box.children` built so far. -/
def iibLoop {α : Type} (e : α) :
    List (Box α) → List (Box α) → List (Box α) → Except NormErr (List (Box α))
  | [], out, acc =>
      if acc.isEmpty then pure out
      else if out.isEmpty then pure [.line e acc]
      else pure (out ++ [.anon e [.line e acc]])
  | c :: rest, out, acc =>
      if c.isLineB then throw .nestedLineBox
      else if c.blockLevel then
        if acc.isEmpty then iibLoop e rest (out ++ [c]) []
        else iibLoop e rest (out ++ [.anon e [.line e acc], c]) []
      else iibLoop e rest out (acc ++ [c])

/-- Action of `inline_in_block` on a block-level box after its children
have been recursed into: the idempotence shortcut (`len(children) == 1
and isinstance(children[0], LineBox)`), otherwise the wrapping loop. -/
def iibBlock {α : Type} (isAnonymous : Bool) (e : α) (cs : List (Box α)) :
    Except NormErr (Box α) :=
  match cs with
  | [.line e' k] => pure (mkBlk isAnonymous e [.line e' k])
  | _ => do pure (mkBlk isAnonymous e (← iibLoop e cs [] []))

mutual

/-- `inline_in_block(box)`: recurse into every child first, then act on
the box itself only if it is block-level. -/
def inlineInBlock {α : Type} : Box α → Except NormErr (Box α)
  | .text e s => pure (.text e s)
  | .line e cs => do pure (.line e (← iibKids cs))
  | .inl e cs => do pure (.inl e (← iibKids cs))
  | .block e cs => do iibBlock false e (← iibKids cs)
  | .anon e cs => do iibBlock true e (← iibKids cs)

/-- `inline_in_block` applied to each box of a children list. -/
def iibKids {α : Type} : List (Box α) → Except NormErr (List (Box α))
  | [] => pure []
  | c :: cs => do pure ((← inlineInBlock c) :: (← iibKids cs))

end

/-! ## `block_in_inline`

`block_in_inline` mutates the tree through `parent` pointers and
children lists.  Three behaviours of the source force a store-based
embedding rather than a structural recursion:

* `for child_box in box.children or []` iterates the list *object*
  fetched once at loop entry; in-place `insert`/`append`/`remove` on
  that object are seen by the running loop,
* `parent.children = parent.children[:splitter_box.index]` rebinds the
  attribute to a *fresh* object, so a loop already running over the old
  object keeps iterating the old (stale) children — which by then have
  been re-parented into the cloned inline boxes,
* the split surgery reads and writes ancestors through `parent`.

So the tree is loaded into a store of numbered nodes (with `parent`
back-pointers) and numbered children-list objects; each statement of the
source maps to one store operation below, and the result is read back at
the end.  Every loop is fuel-indexed. -/

/-- Failures of `block_in_inline`.  `noLineBoxAncestor`: every strict
ancestor of the triggering box is inline-level, so `parent_line_box` is
still `None` and `parent_line_box.element` raises `AttributeError`.
`rootSplit`: `parent_line_box` is the root, so
`parent_line_box.parent.add_child` raises `AttributeError`.  `fuelOut`
reports interpreter fuel exhaustion; `internalErr` marks states the
source cannot reach (a dangling reference, or `list.index` not finding
the searched box, which would raise `ValueError`). -/
inductive SplitErr where
  | fuelOut
  | noLineBoxAncestor
  | rootSplit
  | internalErr
deriving DecidableEq, Repr

/-- The dynamic class of a stored node. -/
inductive NKind where
  | blockN
  | anonN
  | lineN
  | inlN
  | textN
deriving DecidableEq, Repr

/-- `isinstance(-, BlockLevelBox)` on a stored node's class. -/
def NKind.isBlockLevel : NKind → Bool
  | .blockN => true
  | .anonN => true
  | _ => false

/-- One Python box object: class, `element`, text payload (`TextBox`
only), weak `parent` back-reference, and the reference of the list
object currently bound to `children` (`none` for a `TextBox`). -/
structure Node (α : Type) where
  kind : NKind
  el : α
  txt : String
  parent : Option Nat
  clist : Option Nat
deriving Repr, DecidableEq

/-- The object store: box objects and children-list objects by id.
Updates shadow older entries (lookup finds the newest binding). -/
structure St (α : Type) where
  nodes : List (Nat × Node α)
  lists : List (Nat × List Nat)
  nextId : Nat
  nextRef : Nat
deriving Repr, DecidableEq

/-- Empty store. -/
def St.empty {α : Type} : St α := ⟨[], [], 0, 0⟩

/-- Read a box object. -/
def St.node {α : Type} (σ : St α) (i : Nat) : Option (Node α) :=
  σ.nodes.lookup i

/-- Overwrite a box object. -/
def St.setNode {α : Type} (σ : St α) (i : Nat) (n : Node α) : St α :=
  { σ with nodes := (i, n) :: σ.nodes }

/-- Read a children-list object (a dangling reference reads `[]`; the
source never produces one). -/
def St.list {α : Type} (σ : St α) (r : Nat) : List Nat :=
  (σ.lists.lookup r).getD []

/-- Overwrite a children-list object in place. -/
def St.setList {α : Type} (σ : St α) (r : Nat) (l : List Nat) : St α :=
  { σ with lists := (r, l) :: σ.lists }

/-- Allocate a fresh list object. -/
def St.allocList {α : Type} (σ : St α) (l : List Nat) : St α × Nat :=
  ({ σ with lists := (σ.nextRef, l) :: σ.lists, nextRef := σ.nextRef + 1 },
   σ.nextRef)

/-- Allocate a fresh non-text box object (the `Box.__init__` of the
source: no parent yet, a fresh empty `children` list). -/
def St.allocNode {α : Type} (σ : St α) (k : NKind) (e : α) : St α × Nat :=
  let (σ₁, r) := σ.allocList []
  ({ σ₁ with nodes := (σ₁.nextId, ⟨k, e, "", none, some r⟩) :: σ₁.nodes,
             nextId := σ₁.nextId + 1 },
   σ₁.nextId)

/-- Class of a stored box (`internalErr` states read as `textN`). -/
def St.kindOf {α : Type} (σ : St α) (i : Nat) : NKind :=
  match σ.node i with
  | some n => n.kind
  | none => .textN

/-- `box.parent`. -/
def St.parentOf {α : Type} (σ : St α) (i : Nat) : Option Nat :=
  match σ.node i with
  | some n => n.parent
  | none => none

/-- The current `children` list of a box (`box.children or []`). -/
def St.kidsOf {α : Type} (σ : St α) (i : Nat) : List Nat :=
  match σ.node i with
  | some n =>
      match n.clist with
      | some r => σ.list r
      | none => []
  | none => []

/-- `box.index`: `self.parent.children.index(self)`, `none` for a box
without parent. -/
def St.indexOf {α : Type} (σ : St α) (i : Nat) : Option Nat :=
  match σ.parentOf i with
  | some p => some ((σ.kidsOf p).indexOf i)
  | none => none

/-- `parent.add_child(child, index)`: set `child.parent = parent`, then
`children.append(child)` (no index) or `children.insert(index, child)`.
Both mutate the bound list object in place. -/
def St.addChild {α : Type} (σ : St α) (p child : Nat) (index : Option Nat) :
    Except SplitErr (St α) := do
  let some cn := σ.node child | throw .internalErr
  let σ₁ := σ.setNode child { cn with parent := some p }
  let some pn := σ₁.node p | throw .internalErr
  let some r := pn.clist | throw .internalErr
  let l := σ₁.list r
  match index with
  | none => pure (σ₁.setList r (l ++ [child]))
  | some idx => pure (σ₁.setList r (l.insertIdx idx child))

/-- The walk of `box.parents` inside the trigger: collect the
`InlineLevelBox` ancestors (nearest first) and stop at the first
non-inline ancestor, `parent_line_box`; yields `none` for it when the
walk exhausts the chain with only inline ancestors. -/
def collectChain {α : Type} :
    Nat → St α → Option Nat → List Nat →
    Except SplitErr (List Nat × Option Nat)
  | 0, _, _, _ => throw .fuelOut
  | _ + 1, _, none, acc => pure (acc, none)
  | fuel + 1, σ, some p, acc =>
      if σ.kindOf p = .inlN then collectChain fuel σ (σ.parentOf p) (acc ++ [p])
      else pure (acc, some p)

/-- The clone loop over the reversed `inline_parents` (the source pops
from the end of the list, so the outermost inline ancestor is cloned
first): create `InlineLevelBox(parent.element)`, append it as child of
the current `next_anonymous_box` cursor, descend. -/
def cloneChainRev {α : Type} :
    List Nat → St α → Nat → Except SplitErr (St α × Nat)
  | [], σ, cursor => pure (σ, cursor)
  | p :: ps, σ, cursor => do
      let some pn := σ.node p | throw .internalErr
      let (σ₁, clone) := σ.allocNode .inlN pn.el
      let σ₂ ← σ₁.addChild cursor clone none
      cloneChainRev ps σ₂ clone

/-- `while inline_parents: parent = inline_parents.pop(); ...`: clone
the collected inline ancestors outermost first; returns the innermost
clone as the final `next_anonymous_box` cursor. -/
def cloneChain {α : Type} (ips : List Nat) (σ : St α) (cursor : Nat) :
    Except SplitErr (St α × Nat) :=
  cloneChainRev ips.reverse σ cursor

/-- The redistribution loop of the trigger:

    splitter_box = box
    for parent in box.parents:
        if parent == parent_line_box: break
        next_children = parent.children[splitter_box.index + 1:]
        parent.children = parent.children[:splitter_box.index]
        for child in next_children: next_anonymous_box.add_child(child)
        splitter_box = parent
        next_anonymous_box = next_anonymous_box.parent

`parent.children = ...` binds a fresh list object: a loop running over
the old object keeps iterating the old elements. -/
def distLoop {α : Type} :
    Nat → St α → Nat → Option Nat → Nat → Nat → Except SplitErr (St α)
  | 0, _, _, _, _, _ => throw .fuelOut
  | _ + 1, σ, _, none, _, _ => pure σ
  | fuel + 1, σ, splitter, some par, plb, nextCur => do
      if par = plb then pure σ
      else
        let some pn := σ.node par | throw .internalErr
        let some r := pn.clist | throw .internalErr
        let l := σ.list r
        let i := l.indexOf splitter
        if i ≥ l.length then throw .internalErr
        else do
          let nextChildren := l.drop (i + 1)
          let (σ₁, r') := σ.allocList (l.take i)
          let σ₂ := σ₁.setNode par { pn with clist := some r' }
          let σ₃ ← nextChildren.foldlM (fun s c => s.addChild nextCur c none) σ₂
          let some newCur := σ₃.parentOf nextCur | throw .internalErr
          distLoop fuel σ₃ par (σ₃.parentOf par) plb newCur

/-- The trigger surgery of `block_in_inline`, run when `box` is
block-level and `box.parent` is an `InlineLevelBox`; transcribed
statement by statement (lines 268-311 of the source). -/
def trigger {α : Type} (fuel : Nat) (σ : St α) (box : Nat) :
    Except SplitErr (St α) := do
  let (inlineParents, plbOpt) ← collectChain fuel σ (σ.parentOf box) []
  let some plb := plbOpt | throw .noLineBoxAncestor
  let some plbNode := σ.node plb | throw .internalErr
  let (σ₁, prevAnon) := σ.allocNode .anonN plbNode.el
  let some lineParent := σ₁.parentOf plb | throw .rootSplit
  let some plbIdx := σ₁.indexOf plb | throw .internalErr
  let σ₂ ← σ₁.addChild lineParent prevAnon (some plbIdx)
  let some lpNode := σ₂.node lineParent | throw .internalErr
  let some lpRef := lpNode.clist | throw .internalErr
  let σ₃ := σ₂.setList lpRef ((σ₂.list lpRef).erase plb)
  let σ₄ ← σ₃.addChild prevAnon plb none
  let (σ₅, nextAnon) := σ₄.allocNode .anonN plbNode.el
  let some prevParent := σ₅.parentOf prevAnon | throw .internalErr
  let some prevIdx := σ₅.indexOf prevAnon | throw .internalErr
  let σ₆ ← σ₅.addChild prevParent nextAnon (some (prevIdx + 1))
  let (σ₇, cursor) ← cloneChain inlineParents σ₆ nextAnon
  let σ₈ ← distLoop fuel σ₇ box (σ₇.parentOf box) plb cursor
  let some prevParent₂ := σ₈.parentOf prevAnon | throw .internalErr
  let some prevIdx₂ := σ₈.indexOf prevAnon | throw .internalErr
  σ₈.addChild prevParent₂ box (some (prevIdx₂ + 1))

mutual

/-- `block_in_inline(box)` over the store: run the trigger surgery when
`box` is block-level with an inline-level parent, then iterate the list
object currently bound to `box.children`. -/
def bii {α : Type} : Nat → St α → Nat → Except SplitErr (St α)
  | 0, _, _ => throw .fuelOut
  | fuel + 1, σ, box => do
      let σ₁ ←
        if (σ.kindOf box).isBlockLevel then
          match σ.parentOf box with
          | some p =>
              if σ.kindOf p = .inlN then trigger fuel σ box
              else pure σ
          | none => pure σ
        else pure σ
      match (σ₁.node box).bind Node.clist with
      | some r => biiLoop fuel σ₁ r 0
      | none => pure σ₁

/-- `for child_box in box.children or []: block_in_inline(child_box)`:
iterate the captured list object by increasing position, rereading it
at every step (in-place mutations are seen; rebinding `box.children`
elsewhere is not). -/
def biiLoop {α : Type} : Nat → St α → Nat → Nat → Except SplitErr (St α)
  | 0, _, _, _ => throw .fuelOut
  | fuel + 1, σ, r, i => do
      let l := σ.list r
      if h : i < l.length then do
        let σ' ← bii fuel σ (l.get ⟨i, h⟩)
        biiLoop fuel σ' r (i + 1)
      else pure σ

end

/-- Allocate a non-text box object with no `children` list bound yet. -/
def startNode {α : Type} (σ : St α) (k : NKind) (e : α)
    (parent : Option Nat) : St α × Nat :=
  ({ σ with nodes := (σ.nextId, ⟨k, e, "", parent, none⟩) :: σ.nodes,
            nextId := σ.nextId + 1 },
   σ.nextId)

/-- Bind a fresh list object holding `ids` as the `children` of box `i`. -/
def finishNode {α : Type} (σ : St α) (i : Nat) (ids : List Nat) : St α :=
  let (σ₁, r) := σ.allocList ids
  match σ₁.node i with
  | some n => σ₁.setNode i { n with clist := some r }
  | none => σ₁

mutual

/-- Load a box tree into the store, assigning ids in pre-order; sets the
`parent` back-references. -/
def loadBox {α : Type} (parent : Option Nat) : Box α → St α → St α × Nat
  | .text e s, σ =>
      ({ σ with nodes := (σ.nextId, ⟨.textN, e, s, parent, none⟩) :: σ.nodes,
                nextId := σ.nextId + 1 },
       σ.nextId)
  | .block e cs, σ =>
      let (σ₁, i) := startNode σ .blockN e parent
      let (σ₂, ids) := loadKids (some i) cs σ₁
      (finishNode σ₂ i ids, i)
  | .anon e cs, σ =>
      let (σ₁, i) := startNode σ .anonN e parent
      let (σ₂, ids) := loadKids (some i) cs σ₁
      (finishNode σ₂ i ids, i)
  | .line e cs, σ =>
      let (σ₁, i) := startNode σ .lineN e parent
      let (σ₂, ids) := loadKids (some i) cs σ₁
      (finishNode σ₂ i ids, i)
  | .inl e cs, σ =>
      let (σ₁, i) := startNode σ .inlN e parent
      let (σ₂, ids) := loadKids (some i) cs σ₁
      (finishNode σ₂ i ids, i)

/-- Load a children list, left to right. -/
def loadKids {α : Type} (parent : Option Nat) :
    List (Box α) → St α → St α × List Nat
  | [], σ => (σ, [])
  | c :: cs, σ =>
      let (σ₁, i) := loadBox parent c σ
      let (σ₂, ids) := loadKids parent cs σ₁
      (σ₂, i :: ids)

end

mutual

/-- Read a box tree back out of the store. -/
def extract {α : Type} : Nat → St α → Nat → Option (Box α)
  | 0, _, _ => none
  | fuel + 1, σ, i => do
      let n ← σ.node i
      match n.kind with
      | .textN => some (.text n.el n.txt)
      | k => do
          let r ← n.clist
          let ks ← extractList fuel σ (σ.list r)
          match k with
          | .blockN => some (.block n.el ks)
          | .anonN => some (.anon n.el ks)
          | .lineN => some (.line n.el ks)
          | .inlN => some (.inl n.el ks)
          | .textN => some (.text n.el n.txt)

/-- Read a list of subtrees back out of the store. -/
def extractList {α : Type} : Nat → St α → List Nat → Option (List (Box α))
  | 0, _, _ => none
  | _ + 1, _, [] => some []
  | fuel + 1, σ, i :: is => do
      let b ← extract fuel σ i
      let bs ← extractList fuel σ is
      some (b :: bs)

end

/-- `block_in_inline` as a function on box trees: load the tree, run the
pass on the root (which has no parent, so no trigger fires on the root
itself), read the result back. -/
def blockInInline {α : Type} (fuel : Nat) (t : Box α) :
    Except SplitErr (Box α) :=
  let (σ, root) := loadBox none t St.empty
  match bii fuel σ root with
  | .error e => .error e
  | .ok σ' =>
      match extract fuel σ' root with
      | some t' => .ok t'
      | none => .error .internalErr

/-! ## `dom_to_box`

The builder consumes styled DOM elements.  An element exposes its
resolved `display`, its direct text (`element.text`), its child elements
in document order, and the `tail` text attached to each child.  Python's
`if element.text:` treats both `None` and the empty string as absent, so
text and tail are plain strings with `""` for absent. -/

/-- A styled DOM element as consumed by `dom_to_box`. -/
inductive Element where
  | mk (display : String) (text : String) (tail : String)
      (childElements : List Element)

/-- `element.style.display`. -/
def Element.display : Element → String
  | .mk d _ _ _ => d

/-- `element.text` (direct leading text). -/
def Element.text : Element → String
  | .mk _ t _ _ => t

/-- `element.tail` (text following this element, inside its parent). -/
def Element.tail : Element → String
  | .mk _ _ tl _ => tl

/-- The child elements (iterating `for child_element in element`). -/
def Element.childElements : Element → List Element
  | .mk _ _ _ cs => cs

mutual

/-- Decidable structural equality on elements. -/
def Element.decEqE : (a b : Element) → Decidable (a = b)
  | .mk d t tl cs, .mk d' t' tl' cs' =>
      if h1 : d = d' then
        if h2 : t = t' then
          if h3 : tl = tl' then
            match Element.decEqListE cs cs' with
            | isTrue h4 => isTrue (by rw [h1, h2, h3, h4])
            | isFalse h4 => isFalse (fun h => by cases h; exact h4 rfl)
          else isFalse (fun h => by cases h; exact h3 rfl)
        else isFalse (fun h => by cases h; exact h2 rfl)
      else isFalse (fun h => by cases h; exact h1 rfl)

/-- Decidable structural equality on element lists. -/
def Element.decEqListE : (as bs : List Element) → Decidable (as = bs)
  | [], [] => isTrue rfl
  | [], _ :: _ => isFalse (fun h => List.noConfusion h)
  | _ :: _, [] => isFalse (fun h => List.noConfusion h)
  | a :: as, b :: bs =>
      match Element.decEqE a b, Element.decEqListE as bs with
      | isTrue h1, isTrue h2 => isTrue (by rw [h1, h2])
      | isFalse h1, _ => isFalse (fun h => by cases h; exact h1 rfl)
      | _, isFalse h2 => isFalse (fun h => by cases h; exact h2 rfl)

end

instance : DecidableEq Element := Element.decEqE

/-- Failures of `dom_to_box`: the `assert display != 'none'`, and
`raise NotImplementedError('Unsupported display: ' + display)` for a
display value that maps to no box class. -/
inductive BuildErr where
  | assertNoneDisplay
  | unsupported (msg : String)
deriving DecidableEq, Repr

/-- `display in ('block', 'list-item', 'table') or
display.startswith('table-')` (`startswith` is spelled out on the
character lists). -/
def blockDisplay (d : String) : Bool :=
  d = "block" || d = "list-item" || d = "table" ||
    "table-".data.isPrefixOf d.data

/-- `display in ('inline', 'inline-block', 'inline-table', 'ruby')`. -/
def inlineDisplay (d : String) : Bool :=
  d = "inline" || d = "inline-block" || d = "inline-table" || d = "ruby"

mutual

/-- `dom_to_box(element)`: assert the display is not `none`, classify the
element into a `BlockLevelBox` or `InlineLevelBox` (or fail), then
append the leading `TextBox` and, for each child element in document
order, the recursively built box (skipped entirely when the child's
display is `none`) followed by a `TextBox` wrapping the child's tail
text — the tail check is outside the display check, and the tail
`TextBox` carries the parent element. -/
def domToBox : Element → Except BuildErr (Box Element)
  | .mk d t tl cs => do
      let e := Element.mk d t tl cs
      if d = "none" then throw .assertNoneDisplay
      else if blockDisplay d then
        pure (.block e ((if t ≠ "" then [.text e t] else []) ++
          (← buildKids e cs)))
      else if inlineDisplay d then
        pure (.inl e ((if t ≠ "" then [.text e t] else []) ++
          (← buildKids e cs)))
      else throw (.unsupported ("Unsupported display: " ++ d))

/-- The child loop of `dom_to_box`: for each child element, the built box
when the display is not `none`, then the tail `TextBox(element, tail)`
when the tail is non-empty (`element` being the parent). -/
def buildKids (parent : Element) :
    List Element → Except BuildErr (List (Box Element))
  | [] => pure []
  | c :: cs => do
      let headBoxes ←
        if c.display ≠ "none" then do pure [← domToBox c]
        else pure []
      let tailBoxes : List (Box Element) :=
        if c.tail ≠ "" then [.text parent c.tail] else []
      pure (headBoxes ++ tailBoxes ++ (← buildKids parent cs))

end

/-- The leading `TextBox` of `dom_to_box` (`if element.text:`). -/
def leadPart (e : Element) : List (Box Element) :=
  if e.text ≠ "" then [Box.text e e.text] else []

/-- The tail `TextBox` contributed after a child element: it carries the
parent element (`TextBox(element, child_element.tail)`), when the tail
text is non-empty. -/
def tailPart (parent c : Element) : List (Box Element) :=
  if c.tail ≠ "" then [Box.text parent c.tail] else []

/-- The segment of boxes one child element contributes to its parent's
children: nothing but the tail `TextBox` when its display is `none`,
otherwise its recursively built box followed by the tail `TextBox`. -/
def SegRel (parent : Element) (c : Element) (seg : List (Box Element)) : Prop :=
  (c.display = "none" ∧ seg = tailPart parent c) ∨
  (c.display ≠ "none" ∧
    ∃ bc, domToBox c = .ok bc ∧ seg = bc :: tailPart parent c)

/-- Concatenation of the per-child segments. -/
def catLists {α : Type} : List (List α) → List α
  | [] => []
  | l :: ls => l ++ catLists ls

/-- Scenario input for the block-in-inline split: a `LineBox` child of a
block-level box containing exactly one `InlineLevelBox` which directly
contains one `BlockLevelBox`. -/
def tSplit : Box Nat := .block 0 [.line 1 [.inl 2 [.block 3 []]]]

/-- `tSplit` loaded into the store (node ids 0-3 in pre-order). -/
def sSplit0 : St Nat :=
  ⟨[(0, ⟨.blockN, 0, "", none, some 3⟩),
   (1, ⟨.lineN, 1, "", some 0, some 2⟩),
   (2, ⟨.inlN, 2, "", some 1, some 1⟩),
   (3, ⟨.blockN, 3, "", some 2, some 0⟩),
   (3, ⟨.blockN, 3, "", some 2, none⟩),
   (2, ⟨.inlN, 2, "", some 1, none⟩),
   (1, ⟨.lineN, 1, "", some 0, none⟩),
   (0, ⟨.blockN, 0, "", none, none⟩)],
  [(3, [1]), (2, [2]), (1, [3]), (0, [])],
  4, 4⟩

/-- The store after `block_in_inline` has processed the `LineBox`
(node 1) of `tSplit`: the split surgery has run. -/
def sSplit1 : St Nat :=
  ⟨[(3, ⟨.blockN, 3, "", some 0, some 0⟩),
   (2, ⟨.inlN, 2, "", some 1, some 7⟩),
   (6, ⟨.inlN, 2, "", some 5, some 6⟩),
   (6, ⟨.inlN, 2, "", none, some 6⟩),
   (5, ⟨.anonN, 1, "", some 0, some 5⟩),
   (5, ⟨.anonN, 1, "", none, some 5⟩),
   (1, ⟨.lineN, 1, "", some 4, some 2⟩),
   (4, ⟨.anonN, 1, "", some 0, some 4⟩),
   (4, ⟨.anonN, 1, "", none, some 4⟩),
   (0, ⟨.blockN, 0, "", none, some 3⟩),
   (1, ⟨.lineN, 1, "", some 0, some 2⟩),
   (2, ⟨.inlN, 2, "", some 1, some 1⟩),
   (3, ⟨.blockN, 3, "", some 2, some 0⟩),
   (3, ⟨.blockN, 3, "", some 2, none⟩),
   (2, ⟨.inlN, 2, "", some 1, none⟩),
   (1, ⟨.lineN, 1, "", some 0, none⟩),
   (0, ⟨.blockN, 0, "", none, none⟩)],
  [(3, [4, 3, 5]), (7, []), (5, [6]), (6, []), (3, [4, 5]), (5, []), (4, [1]), (3, [4]), (3, [4, 1]), (4, []), (3, [1]), (2, [2]), (1, [3]), (0, [])],
  7, 8⟩

/-- Input with the first non-inline ancestor a `BlockLevelBox`, not a
`LineBox`: a block box inside an inline box inside another block box. -/
def tBlockLB : Box Nat := .block 0 [.block 1 [.inl 2 [.block 3 []]]]

/-- `tBlockLB` loaded into the store. -/
def sBlockLB0 : St Nat :=
  ⟨[(0, ⟨.blockN, 0, "", none, some 3⟩),
   (1, ⟨.blockN, 1, "", some 0, some 2⟩),
   (2, ⟨.inlN, 2, "", some 1, some 1⟩),
   (3, ⟨.blockN, 3, "", some 2, some 0⟩),
   (3, ⟨.blockN, 3, "", some 2, none⟩),
   (2, ⟨.inlN, 2, "", some 1, none⟩),
   (1, ⟨.blockN, 1, "", some 0, none⟩),
   (0, ⟨.blockN, 0, "", none, none⟩)],
  [(3, [1]), (2, [2]), (1, [3]), (0, [])],
  4, 4⟩

/-- The store after `block_in_inline` has processed node 1 of
`tBlockLB`: the surgery ran with `parent_line_box` a `BlockLevelBox`. -/
def sBlockLB1 : St Nat :=
  ⟨[(3, ⟨.blockN, 3, "", some 0, some 0⟩),
   (2, ⟨.inlN, 2, "", some 1, some 7⟩),
   (6, ⟨.inlN, 2, "", some 5, some 6⟩),
   (6, ⟨.inlN, 2, "", none, some 6⟩),
   (5, ⟨.anonN, 1, "", some 0, some 5⟩),
   (5, ⟨.anonN, 1, "", none, some 5⟩),
   (1, ⟨.blockN, 1, "", some 4, some 2⟩),
   (4, ⟨.anonN, 1, "", some 0, some 4⟩),
   (4, ⟨.anonN, 1, "", none, some 4⟩),
   (0, ⟨.blockN, 0, "", none, some 3⟩),
   (1, ⟨.blockN, 1, "", some 0, some 2⟩),
   (2, ⟨.inlN, 2, "", some 1, some 1⟩),
   (3, ⟨.blockN, 3, "", some 2, some 0⟩),
   (3, ⟨.blockN, 3, "", some 2, none⟩),
   (2, ⟨.inlN, 2, "", some 1, none⟩),
   (1, ⟨.blockN, 1, "", some 0, none⟩),
   (0, ⟨.blockN, 0, "", none, none⟩)],
  [(3, [4, 3, 5]), (7, []), (5, [6]), (6, []), (3, [4, 5]), (5, []), (4, [1]), (3, [4]), (3, [4, 1]), (4, []), (3, [1]), (2, [2]), (1, [3]), (0, [])],
  7, 8⟩

/-- Input in which a text run sits before a block box inside a chain of
two inline boxes: the redistribution loop of the split surgery drops the
inner inline box (`parent.children[:splitter_box.index]` excludes the
splitter), losing the `TextBox` "x". -/
def tTextLoss : Box Nat :=
  .block 0 [.line 1 [.inl 2 [.inl 3 [.text 9 "x", .block 4 []]]]]

/-- `tTextLoss` loaded into the store. -/
def sTextLoss0 : St Nat :=
  ⟨[(0, ⟨.blockN, 0, "", none, some 4⟩),
   (1, ⟨.lineN, 1, "", some 0, some 3⟩),
   (2, ⟨.inlN, 2, "", some 1, some 2⟩),
   (3, ⟨.inlN, 3, "", some 2, some 1⟩),
   (5, ⟨.blockN, 4, "", some 3, some 0⟩),
   (5, ⟨.blockN, 4, "", some 3, none⟩),
   (4, ⟨.textN, 9, "x", some 3, none⟩),
   (3, ⟨.inlN, 3, "", some 2, none⟩),
   (2, ⟨.inlN, 2, "", some 1, none⟩),
   (1, ⟨.lineN, 1, "", some 0, none⟩),
   (0, ⟨.blockN, 0, "", none, none⟩)],
  [(4, [1]), (3, [2]), (2, [3]), (1, [4, 5]), (0, [])],
  6, 5⟩

/-- The store after `block_in_inline` has processed the `LineBox`
(node 1) of `tTextLoss`: the text node 4 is no longer reachable. -/
def sTextLoss1 : St Nat :=
  ⟨[(5, ⟨.blockN, 4, "", some 0, some 0⟩),
   (2, ⟨.inlN, 2, "", some 1, some 10⟩),
   (3, ⟨.inlN, 3, "", some 2, some 9⟩),
   (9, ⟨.inlN, 3, "", some 8, some 8⟩),
   (9, ⟨.inlN, 3, "", none, some 8⟩),
   (8, ⟨.inlN, 2, "", some 7, some 7⟩),
   (8, ⟨.inlN, 2, "", none, some 7⟩),
   (7, ⟨.anonN, 1, "", some 0, some 6⟩),
   (7, ⟨.anonN, 1, "", none, some 6⟩),
   (1, ⟨.lineN, 1, "", some 6, some 3⟩),
   (6, ⟨.anonN, 1, "", some 0, some 5⟩),
   (6, ⟨.anonN, 1, "", none, some 5⟩),
   (0, ⟨.blockN, 0, "", none, some 4⟩),
   (1, ⟨.lineN, 1, "", some 0, some 3⟩),
   (2, ⟨.inlN, 2, "", some 1, some 2⟩),
   (3, ⟨.inlN, 3, "", some 2, some 1⟩),
   (5, ⟨.blockN, 4, "", some 3, some 0⟩),
   (5, ⟨.blockN, 4, "", some 3, none⟩),
   (4, ⟨.textN, 9, "x", some 3, none⟩),
   (3, ⟨.inlN, 3, "", some 2, none⟩),
   (2, ⟨.inlN, 2, "", some 1, none⟩),
   (1, ⟨.lineN, 1, "", some 0, none⟩),
   (0, ⟨.blockN, 0, "", none, none⟩)],
  [(4, [6, 5, 7]), (10, []), (9, [4]), (7, [9]), (8, []), (6, [8]), (7, []), (4, [6, 7]), (6, []), (5, [1]), (4, [6]), (4, [6, 1]), (5, []), (4, [1]), (3, [2]), (2, [3]), (1, [4, 5]), (0, [])],
  10, 11⟩

/-- A tree satisfying the claimed post-normalization invariant in which
an `AnonymousBlockLevelBox` sits under an `InlineLevelBox` behind an
intervening `LineBox`: the block's own parent is a `LineBox`, so the
trigger condition of `block_in_inline` never fires. -/
def tBarrier : Box Nat := .line 0 [.inl 1 [.line 2 [.anon 4 []]]]

/-- `tBarrier` loaded into the store. -/
def sBarrier0 : St Nat :=
  ⟨[(0, ⟨.lineN, 0, "", none, some 3⟩),
   (1, ⟨.inlN, 1, "", some 0, some 2⟩),
   (2, ⟨.lineN, 2, "", some 1, some 1⟩),
   (3, ⟨.anonN, 4, "", some 2, some 0⟩),
   (3, ⟨.anonN, 4, "", some 2, none⟩),
   (2, ⟨.lineN, 2, "", some 1, none⟩),
   (1, ⟨.inlN, 1, "", some 0, none⟩),
   (0, ⟨.lineN, 0, "", none, none⟩)],
  [(3, [1]), (2, [2]), (1, [3]), (0, [])],
  4, 4⟩

/-- An inline-level root directly containing a block-level box: every
strict ancestor of the block is inline-level, so the ancestor walk of
the split surgery finds no non-inline ancestor at all and
`parent_line_box.element` raises `AttributeError`. -/
def tNoLine : Box Nat := .inl 0 [.block 1 []]

/-- A children list consisting of exactly one `LineBox`. -/
def oneLineChild {α : Type} : List (Box α) → Bool
  | [.line _ _] => true
  | _ => false

mutual

/-- Store node `i` faithfully represents the box tree `t`: its class,
element, text and bound children list match `t`, its `parent` field
holds `p`, and its children nodes represent the child subtrees with
their `parent` fields pointing back at `i`. -/
inductive Rep {α : Type} (σ : St α) : Option Nat → Nat → Box α → Prop where
  | text : ∀ (p : Option Nat) (i : Nat) (e : α) (s : String),
      σ.node i = some ⟨.textN, e, s, p, none⟩ → Rep σ p i (.text e s)
  | block : ∀ (p : Option Nat) (i r : Nat) (e : α) (cs : List (Box α)),
      σ.node i = some ⟨.blockN, e, "", p, some r⟩ →
      RepL σ i (σ.list r) cs → Rep σ p i (.block e cs)
  | anon : ∀ (p : Option Nat) (i r : Nat) (e : α) (cs : List (Box α)),
      σ.node i = some ⟨.anonN, e, "", p, some r⟩ →
      RepL σ i (σ.list r) cs → Rep σ p i (.anon e cs)
  | line : ∀ (p : Option Nat) (i r : Nat) (e : α) (cs : List (Box α)),
      σ.node i = some ⟨.lineN, e, "", p, some r⟩ →
      RepL σ i (σ.list r) cs → Rep σ p i (.line e cs)
  | inl : ∀ (p : Option Nat) (i r : Nat) (e : α) (cs : List (Box α)),
      σ.node i = some ⟨.inlN, e, "", p, some r⟩ →
      RepL σ i (σ.list r) cs → Rep σ p i (.inl e cs)

/-- The ids `js` represent the children `cs` of node `par`, in order. -/
inductive RepL {α : Type} (σ : St α) : Nat → List Nat → List (Box α) →
    Prop where
  | nil : ∀ par, RepL σ par [] []
  | cons : ∀ (par i : Nat) (js : List Nat) (c : Box α) (cs : List (Box α)),
      Rep σ (some par) i c → RepL σ par js cs →
      RepL σ par (i :: js) (c :: cs)

end

/-! ## Helper lemmas

Concrete runs of the store interpreter are proved phase by phase: one
lemma application per iteration of the root children loop, with the
per-phase store transitions checked by `decide`. -/

theorem bii_start {α : Type} (fuel : Nat) (σ : St α) (b r : Nat)
    (h1 : σ.parentOf b = none) (h2 : (σ.node b).bind Node.clist = some r) :
    bii (fuel + 1) σ b = biiLoop fuel σ r 0 := by
  cases hk : (σ.kindOf b).isBlockLevel <;>
    simp [bii, hk, h1, h2, Except.bind]

theorem biiLoop_step {α : Type} (fuel : Nat) (σ σ2 : St α) (r i c : Nat)
    (hc : (σ.list r).get? i = some c) (hb : bii fuel σ c = .ok σ2) :
    biiLoop (fuel + 1) σ r i = biiLoop fuel σ2 r (i + 1) := by
  obtain ⟨hlt, hg⟩ := List.get?_eq_some.mp hc
  simp only [biiLoop]
  rw [dif_pos hlt, hg, hb]
  rfl

theorem biiLoop_end {α : Type} (fuel : Nat) (σ : St α) (r i : Nat)
    (h : ¬ i < (σ.list r).length) : biiLoop (fuel + 1) σ r i = .ok σ := by
  simp only [biiLoop]
  rw [dif_neg h]
  rfl

theorem blockInInline_eq {α : Type} (fuel : Nat) (t : Box α) (σ0 σf : St α)
    (root : Nat) (out : Box α)
    (h0 : loadBox none t St.empty = (σ0, root))
    (h1 : bii fuel σ0 root = .ok σf)
    (h2 : extract fuel σf root = some out) :
    blockInInline fuel t = .ok out := by
  unfold blockInInline
  rw [h0]
  simp only [h1, h2]

/-- The run of `block_in_inline` on `tBlockLB`, where the first
non-inline ancestor of the nested block is a `BlockLevelBox`, not a
`LineBox`: the surgery runs to completion all the same. -/
theorem run_tBlockLB :
    blockInInline 40 tBlockLB =
      .ok (.block 0 [.anon 1 [.block 1 [.inl 2 []]], .block 3 [],
        .anon 1 [.inl 2 []]]) :=
  blockInInline_eq 40 tBlockLB sBlockLB0 sBlockLB1 0 _ (by decide)
    ((bii_start 39 sBlockLB0 0 3 (by decide) (by decide)).trans
      ((biiLoop_step 38 sBlockLB0 sBlockLB1 3 0 1 (by decide) (by decide)).trans
        ((biiLoop_step 37 sBlockLB1 sBlockLB1 3 1 3 (by decide) (by decide)).trans
          ((biiLoop_step 36 sBlockLB1 sBlockLB1 3 2 5 (by decide) (by decide)).trans
            (biiLoop_end 35 sBlockLB1 3 3 (by decide))))))
    (by decide)

/-- C8: on a `LineBox` child of a block-level box containing exactly one
`InlineLevelBox` which directly contains one `BlockLevelBox`,
`block_in_inline` replaces the `LineBox` in its parent's children by
three consecutive siblings: an `AnonymousBlockLevelBox` wrapping the
original `LineBox` whose inline box is now emptied of the block, the
original `BlockLevelBox`, and an `AnonymousBlockLevelBox` containing a
fresh empty `InlineLevelBox` clone sharing the original inline box's
source element. -/
theorem C8_split_scenario :
    blockInInline 40 tSplit =
      .ok (.block 0 [.anon 1 [.line 1 [.inl 2 []]], .block 3 [],
        .anon 1 [.inl 2 []]]) :=
  blockInInline_eq 40 tSplit sSplit0 sSplit1 0 _ (by decide)
    ((bii_start 39 sSplit0 0 3 (by decide) (by decide)).trans
      ((biiLoop_step 38 sSplit0 sSplit1 3 0 1 (by decide) (by decide)).trans
        ((biiLoop_step 37 sSplit1 sSplit1 3 1 3 (by decide) (by decide)).trans
          ((biiLoop_step 36 sSplit1 sSplit1 3 2 5 (by decide) (by decide)).trans
            (biiLoop_end 35 sSplit1 3 3 (by decide))))))
    (by decide)

/-- C2: refuted on `block_in_inline`.  The input `tTextLoss` has the
single text run `"x"` inside the inner of two nested inline boxes; the
pass succeeds but its output has no `TextBox` leaf at all: the
truncation `parent.children = parent.children[:splitter_box.index]`
drops the `TextBox` sibling that precedes the splitting block inside
the outer inline box, and no other box retains it. -/
theorem C2_text_loss :
    textLeaves tTextLoss = ["x"] ∧
    blockInInline 40 tTextLoss =
      .ok (.block 0 [.anon 1 [.line 1 [.inl 2 []]], .block 4 [],
        .anon 1 [.inl 2 [.inl 3 []]]]) ∧
    textLeaves (.block (0 : Nat) [.anon 1 [.line 1 [.inl 2 []]], .block 4 [],
        .anon 1 [.inl 2 [.inl 3 []]]]) = [] :=
  ⟨by decide,
   blockInInline_eq 40 tTextLoss sTextLoss0 sTextLoss1 0 _ (by decide)
    ((bii_start 39 sTextLoss0 0 4 (by decide) (by decide)).trans
      ((biiLoop_step 38 sTextLoss0 sTextLoss1 4 0 1 (by decide)
          (by decide)).trans
        ((biiLoop_step 37 sTextLoss1 sTextLoss1 4 1 5 (by decide)
            (by decide)).trans
          ((biiLoop_step 36 sTextLoss1 sTextLoss1 4 2 7 (by decide)
              (by decide)).trans
            (biiLoop_end 35 sTextLoss1 4 3 (by decide))))))
    (by decide),
   by decide⟩

/-- C7: refuted as stated.  In `tBlockLB` the nested block's first
non-inline ancestor is a `BlockLevelBox`, not a `LineBox`; the source
never checks the class of that ancestor, so the pass proceeds with the
surgery and returns normally instead of failing. -/
theorem C7_counterexample :
    (Box.block (1 : Nat) [.inl 2 [.block 3 []]]).isLineB = false ∧
    blockInInline 40 tBlockLB =
      .ok (.block 0 [.anon 1 [.block 1 [.inl 2 []]], .block 3 [],
        .anon 1 [.inl 2 []]]) :=
  ⟨by decide, run_tBlockLB⟩

/-- C7 (amended): the ancestor walk stops at the first non-inline-level
ancestor and uses it as the split point whatever its class — on
`tBlockLB`, whose walk stops at a `BlockLevelBox`, the surgery completes
normally; only when every strict ancestor is inline-level (no non-inline
ancestor exists at all) does the pass die, and then with an unhandled
`AttributeError` on `parent_line_box.element`, not a deliberate
invariant check. -/
theorem C7_split_outcomes :
    blockInInline 40 tBlockLB =
      .ok (.block 0 [.anon 1 [.block 1 [.inl 2 []]], .block 3 [],
        .anon 1 [.inl 2 []]]) ∧
    blockInInline 40 tNoLine = .error .noLineBoxAncestor :=
  ⟨run_tBlockLB, by decide⟩

/-! ## `inline_in_block`: normalization, idempotence, anonymous boxes -/

theorem subboxesList_all {α : Type} (p : Box α → Bool) :
    ∀ (l : List (Box α)),
      (subboxesList l).all p = l.all fun c => (subboxes c).all p
  | [] => rfl
  | c :: cs => by
      simp [subboxesList, List.all_append, subboxesList_all p cs]

theorem blocksNormalized_text {α : Type} (e : α) (s : String) :
    blocksNormalized (Box.text e s) = true := by
  simp [blocksNormalized, subboxes, Box.blockLevel]

theorem blocksNormalized_line {α : Type} (e : α) (cs : List (Box α)) :
    blocksNormalized (Box.line e cs) = cs.all fun c => blocksNormalized c := by
  simp [blocksNormalized, subboxes, subboxesList_all, Box.blockLevel]

theorem blocksNormalized_inl {α : Type} (e : α) (cs : List (Box α)) :
    blocksNormalized (Box.inl e cs) = cs.all fun c => blocksNormalized c := by
  simp [blocksNormalized, subboxes, subboxesList_all, Box.blockLevel]

theorem blocksNormalized_block {α : Type} (e : α) (cs : List (Box α)) :
    blocksNormalized (Box.block e cs) =
      (shapeOK cs && cs.all fun c => blocksNormalized c) := by
  simp [blocksNormalized, subboxes, subboxesList_all, Box.blockLevel, Box.kids]

theorem blocksNormalized_anon {α : Type} (e : α) (cs : List (Box α)) :
    blocksNormalized (Box.anon e cs) =
      (shapeOK cs && cs.all fun c => blocksNormalized c) := by
  simp [blocksNormalized, subboxes, subboxesList_all, Box.blockLevel, Box.kids]

theorem blocksNormalized_mkBlk {α : Type} (a : Bool) (e : α)
    (cs : List (Box α)) :
    blocksNormalized (mkBlk a e cs) =
      (shapeOK cs && cs.all fun c => blocksNormalized c) := by
  cases a <;> simp [mkBlk, blocksNormalized_block, blocksNormalized_anon]

theorem all_and_left {α : Type} (p q : α → Bool) (l : List α)
    (h : (l.all fun x => p x && q x) = true) : l.all p = true := by
  induction l with
  | nil => rfl
  | cons x xs ih =>
      simp only [List.all_cons, Bool.and_eq_true] at h ⊢
      exact ⟨h.1.1, ih h.2⟩

theorem all_and_right {α : Type} (p q : α → Bool) (l : List α)
    (h : (l.all fun x => p x && q x) = true) : l.all q = true := by
  induction l with
  | nil => rfl
  | cons x xs ih =>
      simp only [List.all_cons, Bool.and_eq_true] at h ⊢
      exact ⟨h.1.2, ih h.2⟩

theorem shapeOK_of_all_blockLevel {α : Type} (l : List (Box α))
    (h : l.all Box.blockLevel = true) : shapeOK l = true := by
  unfold shapeOK
  split
  · rfl
  · exact h

theorem shapeOK_singleton_line {α : Type} (e : α) (k : List (Box α)) :
    shapeOK [Box.line e k] = true := rfl

theorem iibLoop_norm {α : Type} (e : α) :
    ∀ (cs out acc res : List (Box α)),
      (cs.all fun c => blocksNormalized c) = true →
      (out.all fun c => c.blockLevel && blocksNormalized c) = true →
      (acc.all fun c => blocksNormalized c) = true →
      iibLoop e cs out acc = .ok res →
      shapeOK res = true ∧ (res.all fun c => blocksNormalized c) = true
  | [], out, acc, res, hcs, hout, hacc, h => by
      rw [iibLoop] at h
      split at h
      · cases h
        exact ⟨shapeOK_of_all_blockLevel out (all_and_left _ _ _ hout),
          all_and_right _ _ _ hout⟩
      · split at h
        · cases h
          refine ⟨shapeOK_singleton_line e acc, ?_⟩
          simp [blocksNormalized_line, hacc]
        · cases h
          refine ⟨shapeOK_of_all_blockLevel _ ?_, ?_⟩
          · simp [List.all_append, all_and_left _ _ _ hout, Box.blockLevel]
          · simp [List.all_append, all_and_right _ _ _ hout,
              blocksNormalized_anon, blocksNormalized_line,
              shapeOK_singleton_line, hacc]
  | c :: cs, out, acc, res, hcs, hout, hacc, h => by
      simp only [List.all_cons, Bool.and_eq_true] at hcs
      rw [iibLoop] at h
      split at h
      · cases h
      · split at h
        · split at h
          · rename_i hline hbl hemp
            refine iibLoop_norm e cs (out ++ [c]) [] res hcs.2 ?_ rfl h
            rw [List.all_append, hout, Bool.true_and]
            simp only [List.all_cons, List.all_nil, Bool.and_true,
              Bool.and_eq_true]
            exact ⟨hbl, hcs.1⟩
          · rename_i hline hbl hemp
            refine iibLoop_norm e cs
              (out ++ [.anon e [.line e acc], c]) [] res hcs.2 ?_ rfl h
            rw [List.all_append, hout, Bool.true_and]
            simp only [List.all_cons, List.all_nil, Bool.and_true,
              Bool.and_eq_true]
            refine ⟨⟨rfl, ?_⟩, hbl, hcs.1⟩
            rw [blocksNormalized_anon]
            simp [shapeOK_singleton_line, blocksNormalized_line, hacc]
        · refine iibLoop_norm e cs out (acc ++ [c]) res hcs.2 hout ?_ h
          rw [List.all_append, hacc, Bool.true_and]
          simp [hcs.1]

theorem iibBlock_norm {α : Type} (a : Bool) (e : α) (cs : List (Box α))
    (b' : Box α) (hcs : (cs.all fun c => blocksNormalized c) = true)
    (h : iibBlock a e cs = .ok b') : blocksNormalized b' = true := by
  by_cases hc : ∃ e' k, cs = [Box.line e' k]
  · obtain ⟨e', k, rfl⟩ := hc
    rw [iibBlock] at h
    cases h
    simp only [List.all_cons, List.all_nil, Bool.and_true] at hcs
    rw [blocksNormalized_mkBlk]
    simp [shapeOK_singleton_line, hcs]
  · rw [iibBlock] at h
    · cases hl : iibLoop e cs [] [] with
      | error err => rw [hl] at h; cases h
      | ok res =>
          rw [hl] at h
          obtain ⟨h1, h2⟩ := iibLoop_norm e cs [] [] res hcs rfl rfl hl
          cases h
          rw [blocksNormalized_mkBlk]
          simp [h1, h2]
    · intro el kids hek
      exact hc ⟨el, kids, hek⟩

mutual

theorem iibNorm {α : Type} : ∀ (b b' : Box α),
    inlineInBlock b = .ok b' → blocksNormalized b' = true
  | .text e s, b', h => by
      rw [inlineInBlock] at h
      cases h
      exact blocksNormalized_text e s
  | .line e cs, b', h => by
      rw [inlineInBlock] at h
      cases hk : iibKids cs with
      | error err => rw [hk] at h; cases h
      | ok ks =>
          rw [hk] at h
          cases h
          rw [blocksNormalized_line]
          exact iibNormList cs ks hk
  | .inl e cs, b', h => by
      rw [inlineInBlock] at h
      cases hk : iibKids cs with
      | error err => rw [hk] at h; cases h
      | ok ks =>
          rw [hk] at h
          cases h
          rw [blocksNormalized_inl]
          exact iibNormList cs ks hk
  | .block e cs, b', h => by
      rw [inlineInBlock] at h
      cases hk : iibKids cs with
      | error err => rw [hk] at h; cases h
      | ok ks =>
          rw [hk] at h
          exact iibBlock_norm false e ks b' (iibNormList cs ks hk) h
  | .anon e cs, b', h => by
      rw [inlineInBlock] at h
      cases hk : iibKids cs with
      | error err => rw [hk] at h; cases h
      | ok ks =>
          rw [hk] at h
          exact iibBlock_norm true e ks b' (iibNormList cs ks hk) h

theorem iibNormList {α : Type} : ∀ (cs ks : List (Box α)),
    iibKids cs = .ok ks → (ks.all fun c => blocksNormalized c) = true
  | [], ks, h => by
      rw [iibKids] at h
      cases h
      rfl
  | c :: cs, ks, h => by
      rw [iibKids] at h
      cases hc : inlineInBlock c with
      | error err => rw [hc] at h; cases h
      | ok k =>
          rw [hc] at h
          cases hk : iibKids cs with
          | error err => rw [hk] at h; cases h
          | ok ks' =>
              rw [hk] at h
              cases h
              simp only [List.all_cons, Bool.and_eq_true]
              exact ⟨iibNorm c k hc, iibNormList cs ks' hk⟩

end

/-- C3: for every input box tree, a successful run of `inline_in_block`
leaves every block-level box (`BlockLevelBox` or
`AnonymousBlockLevelBox`) with children that are either exactly one
`LineBox` or a (possibly empty) sequence of block-level boxes only,
never a bare inline-level or text child. -/
theorem C3_normalized_shape {α : Type} (t t' : Box α)
    (h : inlineInBlock t = .ok t') : blocksNormalized t' = true :=
  iibNorm t t' h

/-- Witness for C3 at a concrete input: a block with one text child is
rewrapped into a single `LineBox`. -/
theorem C3_normalized_shape_witness :
    inlineInBlock (Box.block (0 : Nat) [.text 1 "a"]) =
      .ok (.block 0 [.line 0 [.text 1 "a"]]) ∧
    blocksNormalized (Box.block (0 : Nat) [.line 0 [.text 1 "a"]]) = true :=
  ⟨by decide,
   C3_normalized_shape (Box.block 0 [.text 1 "a"])
     (Box.block 0 [.line 0 [.text 1 "a"]]) (by decide)⟩

theorem blockLevel_not_line {α : Type} (b : Box α)
    (h : b.blockLevel = true) : b.isLineB = false := by
  cases b <;> first | rfl | cases h

theorem iibLoop_id {α : Type} (e : α) :
    ∀ (cs out : List (Box α)), cs.all Box.blockLevel = true →
      iibLoop e cs out [] = .ok (out ++ cs)
  | [], out, _ => by simp [iibLoop, pure, Except.pure]
  | c :: cs, out, h => by
      simp only [List.all_cons, Bool.and_eq_true] at h
      rw [iibLoop]
      simp only [blockLevel_not_line c h.1, h.1, Bool.false_eq_true,
        if_false, if_true, List.isEmpty_nil]
      rw [iibLoop_id e cs (out ++ [c]) h.2]
      simp [List.append_assoc]

theorem iibBlock_fix {α : Type} (a : Bool) (e : α) (cs : List (Box α))
    (h : shapeOK cs = true) :
    iibBlock a e cs = .ok (mkBlk a e cs) := by
  by_cases hc : ∃ e' k, cs = [Box.line e' k]
  · obtain ⟨e', k, rfl⟩ := hc
    rw [iibBlock]
    rfl
  · have hall : cs.all Box.blockLevel = true := by
      unfold shapeOK at h
      split at h
      · exact absurd ⟨_, _, rfl⟩ hc
      · exact h
    rw [iibBlock]
    · rw [iibLoop_id e cs [] hall]
      rfl
    · intro el kids hek
      exact hc ⟨el, kids, hek⟩

mutual

theorem iibFix {α : Type} : ∀ (b : Box α), blocksNormalized b = true →
    inlineInBlock b = .ok b
  | .text e s, _ => by
      rw [inlineInBlock]
      rfl
  | .line e cs, h => by
      rw [blocksNormalized_line] at h
      rw [inlineInBlock, iibFixList cs h]
      rfl
  | .inl e cs, h => by
      rw [blocksNormalized_inl] at h
      rw [inlineInBlock, iibFixList cs h]
      rfl
  | .block e cs, h => by
      rw [blocksNormalized_block, Bool.and_eq_true] at h
      rw [inlineInBlock, iibFixList cs h.2]
      have hfix := iibBlock_fix false e cs h.1
      simp only [mkBlk, Bool.false_eq_true, if_false] at hfix
      exact hfix
  | .anon e cs, h => by
      rw [blocksNormalized_anon, Bool.and_eq_true] at h
      rw [inlineInBlock, iibFixList cs h.2]
      have hfix := iibBlock_fix true e cs h.1
      simp only [mkBlk, if_true] at hfix
      exact hfix

theorem iibFixList {α : Type} : ∀ (cs : List (Box α)),
    (cs.all fun c => blocksNormalized c) = true → iibKids cs = .ok cs
  | [], _ => by
      rw [iibKids]
      rfl
  | c :: cs, h => by
      simp only [List.all_cons, Bool.and_eq_true] at h
      rw [iibKids]
      simp only [iibFix c h.1, iibFixList cs h.2]
      rfl

end

/-- C4: `inline_in_block` is idempotent: whenever it succeeds, its
output is a fixed point, so a second application returns the output
unchanged (in particular a block-level box whose children are exactly
one `LineBox` is left untouched by the shortcut). -/
theorem C4_idempotent {α : Type} (t t' : Box α)
    (_hnl : noNestedLine t = true) (h : inlineInBlock t = .ok t') :
    inlineInBlock t' = .ok t' :=
  iibFix t' (iibNorm t t' h)

/-- Witness for C4 at a concrete input. -/
theorem C4_idempotent_witness :
    noNestedLine (Box.block (0 : Nat) [.text 1 "a"]) = true ∧
    inlineInBlock (Box.block (0 : Nat) [.line 0 [.text 1 "a"]]) =
      .ok (.block 0 [.line 0 [.text 1 "a"]]) :=
  ⟨by decide,
   C4_idempotent (Box.block 0 [.text 1 "a"]) _ (by decide) (by decide)⟩

/-! ### Anonymous boxes created by `inline_in_block` (C9) -/

theorem anonsOK_text {α : Type} (e : α) (s : String) :
    anonsOK (Box.text e s) = true := by
  simp [anonsOK, subboxes, Box.isAnon]

theorem anonsOK_line {α : Type} (e : α) (cs : List (Box α)) :
    anonsOK (Box.line e cs) = cs.all fun c => anonsOK c := by
  simp [anonsOK, subboxes, subboxesList_all, Box.isAnon]

theorem anonsOK_inl {α : Type} (e : α) (cs : List (Box α)) :
    anonsOK (Box.inl e cs) = cs.all fun c => anonsOK c := by
  simp [anonsOK, subboxes, subboxesList_all, Box.isAnon]

theorem anonsOK_block {α : Type} (e : α) (cs : List (Box α)) :
    anonsOK (Box.block e cs) = cs.all fun c => anonsOK c := by
  simp [anonsOK, subboxes, subboxesList_all, Box.isAnon]

theorem anonsOK_anon {α : Type} (e : α) (cs : List (Box α)) :
    anonsOK (Box.anon e cs) =
      (oneLineChild cs && cs.all fun c => anonsOK c) := by
  cases cs with
  | nil => simp [anonsOK, subboxes, subboxesList_all, Box.isAnon, Box.kids,
      oneLineChild]
  | cons x xs =>
      cases xs with
      | nil => cases x <;>
          simp [anonsOK, subboxes, subboxesList_all, Box.isAnon, Box.kids,
            oneLineChild]
      | cons y ys => simp [anonsOK, subboxes, subboxesList_all, Box.isAnon,
          Box.kids, oneLineChild]

theorem noAnon_line {α : Type} (e : α) (cs : List (Box α)) :
    noAnon (Box.line e cs) = cs.all fun c => noAnon c := by
  simp [noAnon, subboxes, subboxesList_all, Box.isAnon]

theorem noAnon_inl {α : Type} (e : α) (cs : List (Box α)) :
    noAnon (Box.inl e cs) = cs.all fun c => noAnon c := by
  simp [noAnon, subboxes, subboxesList_all, Box.isAnon]

theorem noAnon_block {α : Type} (e : α) (cs : List (Box α)) :
    noAnon (Box.block e cs) = cs.all fun c => noAnon c := by
  simp [noAnon, subboxes, subboxesList_all, Box.isAnon]

theorem noAnon_anon {α : Type} (e : α) (cs : List (Box α)) :
    noAnon (Box.anon e cs) = false := by
  simp [noAnon, subboxes, Box.isAnon]

theorem iibLoop_anons {α : Type} (e : α) :
    ∀ (cs out acc res : List (Box α)),
      (cs.all fun c => anonsOK c) = true →
      (out.all fun c => anonsOK c) = true →
      (acc.all fun c => anonsOK c) = true →
      iibLoop e cs out acc = .ok res →
      (res.all fun c => anonsOK c) = true
  | [], out, acc, res, hcs, hout, hacc, h => by
      rw [iibLoop] at h
      split at h
      · cases h
        exact hout
      · split at h
        · cases h
          simp [anonsOK_line, hacc]
        · cases h
          rw [List.all_append, hout, Bool.true_and]
          simp [anonsOK_anon, anonsOK_line, oneLineChild, hacc]
  | c :: cs, out, acc, res, hcs, hout, hacc, h => by
      simp only [List.all_cons, Bool.and_eq_true] at hcs
      rw [iibLoop] at h
      split at h
      · cases h
      · split at h
        · split at h
          · refine iibLoop_anons e cs (out ++ [c]) [] res hcs.2 ?_ rfl h
            rw [List.all_append, hout, Bool.true_and]
            simp [hcs.1]
          · refine iibLoop_anons e cs
              (out ++ [.anon e [.line e acc], c]) [] res hcs.2 ?_ rfl h
            rw [List.all_append, hout, Bool.true_and]
            simp [anonsOK_anon, anonsOK_line, oneLineChild, hacc, hcs.1]
        · refine iibLoop_anons e cs out (acc ++ [c]) res hcs.2 hout ?_ h
          rw [List.all_append, hacc, Bool.true_and]
          simp [hcs.1]

theorem iibBlock_anons {α : Type} (a : Bool) (e : α) (cs : List (Box α))
    (b' : Box α) (hcs : (cs.all fun c => anonsOK c) = true)
    (ha : a = false)
    (h : iibBlock a e cs = .ok b') : anonsOK b' = true := by
  subst ha
  by_cases hc : ∃ e' k, cs = [Box.line e' k]
  · obtain ⟨e', k, rfl⟩ := hc
    rw [iibBlock] at h
    cases h
    simp only [mkBlk, Bool.false_eq_true, if_false]
    rw [anonsOK_block]
    exact hcs
  · rw [iibBlock] at h
    · cases hl : iibLoop e cs [] [] with
      | error err => rw [hl] at h; cases h
      | ok res =>
          rw [hl] at h
          cases h
          simp only [mkBlk, Bool.false_eq_true, if_false]
          rw [anonsOK_block]
          exact iibLoop_anons e cs [] [] res hcs rfl rfl hl
    · intro el kids hek
      exact hc ⟨el, kids, hek⟩

mutual

theorem iibAnons {α : Type} : ∀ (b b' : Box α), noAnon b = true →
    inlineInBlock b = .ok b' → anonsOK b' = true
  | .text e s, b', _, h => by
      rw [inlineInBlock] at h
      cases h
      exact anonsOK_text e s
  | .line e cs, b', hna, h => by
      rw [inlineInBlock] at h
      rw [noAnon_line] at hna
      cases hk : iibKids cs with
      | error err => rw [hk] at h; cases h
      | ok ks =>
          rw [hk] at h
          cases h
          rw [anonsOK_line]
          exact iibAnonsList cs ks hna hk
  | .inl e cs, b', hna, h => by
      rw [inlineInBlock] at h
      rw [noAnon_inl] at hna
      cases hk : iibKids cs with
      | error err => rw [hk] at h; cases h
      | ok ks =>
          rw [hk] at h
          cases h
          rw [anonsOK_inl]
          exact iibAnonsList cs ks hna hk
  | .block e cs, b', hna, h => by
      rw [inlineInBlock] at h
      rw [noAnon_block] at hna
      cases hk : iibKids cs with
      | error err => rw [hk] at h; cases h
      | ok ks =>
          rw [hk] at h
          exact iibBlock_anons false e ks b' (iibAnonsList cs ks hna hk)
            rfl h
  | .anon e cs, b', hna, h => by
      rw [noAnon_anon] at hna
      cases hna

theorem iibAnonsList {α : Type} : ∀ (cs ks : List (Box α)),
    (cs.all fun c => noAnon c) = true →
    iibKids cs = .ok ks → (ks.all fun c => anonsOK c) = true
  | [], ks, _, h => by
      rw [iibKids] at h
      cases h
      rfl
  | c :: cs, ks, hna, h => by
      simp only [List.all_cons, Bool.and_eq_true] at hna
      rw [iibKids] at h
      cases hc : inlineInBlock c with
      | error err => rw [hc] at h; cases h
      | ok k =>
          rw [hc] at h
          cases hk : iibKids cs with
          | error err => rw [hk] at h; cases h
          | ok ks' =>
              rw [hk] at h
              cases h
              simp only [List.all_cons, Bool.and_eq_true]
              exact ⟨iibAnons c k hna.1 hc, iibAnonsList cs ks' hna.2 hk⟩

end

/-- C9: on an input containing no `AnonymousBlockLevelBox` (so every
anonymous box of the output was created by the pass), after
`inline_in_block` returns, every `AnonymousBlockLevelBox` in the tree
has exactly one child, and that child is a `LineBox`. -/
theorem C9_anonymous_single_line {α : Type} (t t' : Box α)
    (hna : noAnon t = true) (h : inlineInBlock t = .ok t') :
    anonsOK t' = true :=
  iibAnons t t' hna h

/-- Witness for C9 at a concrete input that creates two anonymous
boxes. -/
theorem C9_anonymous_single_line_witness :
    noAnon (Box.block (0 : Nat) [.text 1 "a", .block 2 [], .text 3 "b"]) =
      true ∧
    anonsOK (Box.block (0 : Nat) [.anon 0 [.line 0 [.text 1 "a"]],
      .block 2 [], .anon 0 [.line 0 [.text 3 "b"]]]) = true :=
  ⟨by decide,
   C9_anonymous_single_line
     (Box.block 0 [.text 1 "a", .block 2 [], .text 3 "b"]) _
     (by decide) (by decide)⟩

/-- C1: refuted as stated.  `tBarrier` satisfies the claimed
precondition (`blocksNormalized`), yet the pass returns it unchanged
and an `InlineLevelBox` keeps an `AnonymousBlockLevelBox` in its
subtree: the surgery only fires when the block's *immediate* parent is
inline-level, and the intervening `LineBox` prevents that here. -/
theorem C1_counterexample :
    blocksNormalized tBarrier = true ∧
    blockInInline 40 tBarrier = .ok tBarrier ∧
    hasInlineOverBlock tBarrier = true :=
  ⟨by decide,
   blockInInline_eq 40 tBarrier sBarrier0 sBarrier0 0 tBarrier (by decide)
    ((bii_start 39 sBarrier0 0 3 (by decide) (by decide)).trans
      ((biiLoop_step 38 sBarrier0 sBarrier0 3 0 1 (by decide)
          (by decide)).trans
        (biiLoop_end 37 sBarrier0 3 1 (by decide))))
    (by decide),
   by decide⟩

/-! ## `dom_to_box`: classification, child segments, tail elements -/

theorem domToBox_kids (e : Element) (b : Box Element)
    (h : domToBox e = .ok b) :
    ∃ ks, buildKids e e.childElements = .ok ks ∧
      b.kids = leadPart e ++ ks := by
  obtain ⟨d, t, tl, cs⟩ := e
  rw [domToBox] at h
  by_cases hn : d = "none"
  · rw [if_pos hn] at h
    cases h
  · rw [if_neg hn] at h
    by_cases hb : blockDisplay d = true
    · rw [if_pos hb] at h
      cases hk : buildKids (Element.mk d t tl cs) cs with
      | error err => rw [hk] at h; cases h
      | ok ks =>
          rw [hk] at h
          cases h
          exact ⟨ks, hk, by simp [Box.kids, leadPart, Element.text]⟩
    · rw [if_neg hb] at h
      by_cases hi : inlineDisplay d = true
      · rw [if_pos hi] at h
        cases hk : buildKids (Element.mk d t tl cs) cs with
        | error err => rw [hk] at h; cases h
        | ok ks =>
            rw [hk] at h
            cases h
            exact ⟨ks, hk, by simp [Box.kids, leadPart, Element.text]⟩
      · rw [if_neg hi] at h
        cases h

theorem domToBox_shape (e : Element) (b : Box Element)
    (h : domToBox e = .ok b) :
    b.isTextB = false ∧ b.el = e := by
  obtain ⟨d, t, tl, cs⟩ := e
  rw [domToBox] at h
  by_cases hn : d = "none"
  · rw [if_pos hn] at h
    cases h
  · rw [if_neg hn] at h
    by_cases hb : blockDisplay d = true
    · rw [if_pos hb] at h
      cases hk : buildKids (Element.mk d t tl cs) cs with
      | error err => rw [hk] at h; cases h
      | ok ks =>
          rw [hk] at h
          cases h
          exact ⟨rfl, rfl⟩
    · rw [if_neg hb] at h
      by_cases hi : inlineDisplay d = true
      · rw [if_pos hi] at h
        cases hk : buildKids (Element.mk d t tl cs) cs with
        | error err => rw [hk] at h; cases h
        | ok ks =>
            rw [hk] at h
            cases h
            exact ⟨rfl, rfl⟩
      · rw [if_neg hi] at h
        cases h

theorem buildKids_segs (parent : Element) :
    ∀ (cs : List Element) (ks : List (Box Element)),
      buildKids parent cs = .ok ks →
      ∃ segs, List.Forall₂ (SegRel parent) cs segs ∧ ks = catLists segs
  | [], ks, h => by
      rw [buildKids] at h
      cases h
      exact ⟨[], .nil, rfl⟩
  | c :: cs, ks, h => by
      rw [buildKids] at h
      by_cases hd : c.display = "none"
      · rw [if_neg (by simp [hd])] at h
        simp only [pure_bind] at h
        cases hrest : buildKids parent cs with
        | error err => rw [hrest] at h; cases h
        | ok rest =>
            rw [hrest] at h
            cases h
            obtain ⟨segs, hf, hj⟩ := buildKids_segs parent cs rest hrest
            refine ⟨tailPart parent c :: segs, .cons (Or.inl ⟨hd, rfl⟩) hf, ?_⟩
            simp [catLists, tailPart, hj]
      · rw [if_pos hd] at h
        cases hc : domToBox c with
        | error err => rw [hc] at h; cases h
        | ok bc =>
            rw [hc] at h
            simp only [pure_bind] at h
            cases hrest : buildKids parent cs with
            | error err => rw [hrest] at h; cases h
            | ok rest =>
                rw [hrest] at h
                cases h
                obtain ⟨segs, hf, hj⟩ := buildKids_segs parent cs rest hrest
                refine ⟨(bc :: tailPart parent c) :: segs,
                  .cons (Or.inr ⟨hd, bc, hc, rfl⟩) hf, ?_⟩
                simp [catLists, tailPart, hj]

/-- C6: refuted as stated.  A child element with `display: none` is not
skipped entirely: its trailing tail text still contributes a `TextBox`
to the parent (the tail check sits outside the display check in the
source). -/
theorem C6_counterexample :
    (Element.mk "none" "" "x" []).display = "none" ∧
    domToBox (Element.mk "block" "" "" [Element.mk "none" "" "x" []]) =
      .ok (.block (Element.mk "block" "" "" [Element.mk "none" "" "x" []])
        [.text (Element.mk "block" "" "" [Element.mk "none" "" "x" []]) "x"]) :=
  ⟨rfl, by simp +decide [domToBox, buildKids, blockDisplay, inlineDisplay,
     Element.display, Element.tail, Except.bind]⟩

/-- C6 (amended): for each child element in document order, a child
whose display is `none` contributes no recursively built box but still
contributes the `TextBox` wrapping its non-empty tail text; a
non-skipped child contributes its built box followed by that tail
`TextBox`. -/
theorem C6_child_segments (e : Element) (b : Box Element)
    (h : domToBox e = .ok b) :
    ∃ segs, List.Forall₂ (SegRel e) e.childElements segs ∧
      b.kids = leadPart e ++ catLists segs := by
  obtain ⟨ks, hk, hkids⟩ := domToBox_kids e b h
  obtain ⟨segs, hf, hj⟩ := buildKids_segs e e.childElements ks hk
  exact ⟨segs, hf, by rw [hkids, hj]⟩

/-- Witness for C6 (amended) at the counterexample input: the single
`none`-display child contributes exactly its tail `TextBox`. -/
theorem C6_child_segments_witness :
    ∃ segs,
      List.Forall₂
        (SegRel (Element.mk "block" "" "" [Element.mk "none" "" "x" []]))
        (Element.mk "block" "" "" [Element.mk "none" "" "x" []]).childElements
        segs ∧
      (Box.block (Element.mk "block" "" "" [Element.mk "none" "" "x" []])
        [Box.text (Element.mk "block" "" "" [Element.mk "none" "" "x" []])
          "x"]).kids =
        leadPart (Element.mk "block" "" "" [Element.mk "none" "" "x" []]) ++
          catLists segs :=
  C6_child_segments _ _
    (by simp +decide [domToBox, buildKids, blockDisplay, inlineDisplay,
      Element.display, Element.tail, Except.bind])

/-- C5: classification of `dom_to_box`: a `block`, `list-item`, `table`
or `table-*` display yields a `BlockLevelBox`; an `inline`,
`inline-block`, `inline-table` or `ruby` display yields an
`InlineLevelBox`; any other non-`none` display fails with
`NotImplementedError('Unsupported display: ' + display)` and never
synthesizes a fallback box. -/
theorem C5_display_classification (d t tl : String) (cs : List Element) :
    (blockDisplay d = true → ∀ b, domToBox (.mk d t tl cs) = .ok b →
      ∃ ks, b = .block (.mk d t tl cs) ks) ∧
    (inlineDisplay d = true → ∀ b, domToBox (.mk d t tl cs) = .ok b →
      ∃ ks, b = .inl (.mk d t tl cs) ks) ∧
    (d ≠ "none" → blockDisplay d = false → inlineDisplay d = false →
      domToBox (.mk d t tl cs) =
        .error (.unsupported ("Unsupported display: " ++ d))) := by
  refine ⟨fun hb b h => ?_, fun hi b h => ?_, fun hn hb hi => ?_⟩
  · rw [domToBox] at h
    by_cases hn : d = "none"
    · exact absurd (hn ▸ hb) (by decide)
    · rw [if_neg hn, if_pos hb] at h
      cases hk : buildKids (Element.mk d t tl cs) cs with
      | error err => rw [hk] at h; cases h
      | ok ks =>
          rw [hk] at h
          cases h
          exact ⟨_, rfl⟩
  · have hb : blockDisplay d = false := by
      simp only [inlineDisplay, Bool.or_eq_true, decide_eq_true_eq] at hi
      rcases hi with ((rfl | rfl) | rfl) | rfl <;> decide
    rw [domToBox] at h
    by_cases hn : d = "none"
    · exact absurd (hn ▸ hi) (by decide)
    · rw [if_neg hn, if_neg (by simp [hb]), if_pos hi] at h
      cases hk : buildKids (Element.mk d t tl cs) cs with
      | error err => rw [hk] at h; cases h
      | ok ks =>
          rw [hk] at h
          cases h
          exact ⟨_, rfl⟩
  · rw [domToBox, if_neg hn, if_neg (by simp [hb]), if_neg (by simp [hi])]
    rfl

/-- Witness for C5: `table-row` is a block display and builds a
`BlockLevelBox`. -/
theorem C5_display_classification_witness :
    blockDisplay "table-row" = true ∧
    ∃ ks, Box.block (Element.mk "table-row" "" "" []) [] =
      Box.block (Element.mk "table-row" "" "" []) ks :=
  ⟨by decide,
   (C5_display_classification "table-row" "" "" []).1 (by decide)
     (Box.block (Element.mk "table-row" "" "" []) [])
     (by simp +decide [domToBox, buildKids, blockDisplay, Element.display,
       Except.bind])⟩

theorem mem_tail_boxes {x : Box Element} {parent c : Element}
    {l : List (Box Element)}
    (hx : x ∈ (if c.tail ≠ "" then [Box.text parent c.tail]
      else ([] : List (Box Element))) ++ l) :
    x = Box.text parent c.tail ∨ x ∈ l := by
  rcases List.mem_append.mp hx with hx | hx
  · split at hx
    · exact Or.inl (by simpa using hx)
    · cases hx
  · exact Or.inr hx

theorem buildKids_els (parent : Element) :
    ∀ (cs : List Element) (ks : List (Box Element)),
      buildKids parent cs = .ok ks →
      ∀ x ∈ ks, (x.isTextB = true → x.el = parent) ∧
        (x.isTextB = false → ∃ c, c ∈ cs ∧ domToBox c = .ok x)
  | [], ks, h => by
      rw [buildKids] at h
      cases h
      intro x hx
      cases hx
  | c :: cs, ks, h => by
      rw [buildKids] at h
      by_cases hd : c.display = "none"
      · rw [if_neg (by simp [hd])] at h
        simp only [pure_bind] at h
        cases hrest : buildKids parent cs with
        | error err => rw [hrest] at h; cases h
        | ok rest =>
            rw [hrest] at h
            cases h
            intro x hx
            rw [List.nil_append] at hx
            rcases mem_tail_boxes hx with rfl | hx
            · exact ⟨fun _ => rfl,
                fun hnt => by simp [Box.isTextB] at hnt⟩
            · obtain ⟨h1, h2⟩ := buildKids_els parent cs rest hrest x hx
              refine ⟨h1, fun hnt => ?_⟩
              obtain ⟨c2, hc1, hc2⟩ := h2 hnt
              exact ⟨c2, List.mem_cons_of_mem c hc1, hc2⟩
      · rw [if_pos hd] at h
        cases hc : domToBox c with
        | error err => rw [hc] at h; cases h
        | ok bc =>
            rw [hc] at h
            simp only [pure_bind] at h
            cases hrest : buildKids parent cs with
            | error err => rw [hrest] at h; cases h
            | ok rest =>
                rw [hrest] at h
                cases h
                intro x hx
                rcases List.mem_cons.mp hx with rfl | hx
                · obtain ⟨hs, _⟩ := domToBox_shape c x hc
                  exact ⟨fun ht => absurd ht (by simp [hs]),
                    fun _ => ⟨c, List.mem_cons_self c cs, hc⟩⟩
                · rcases mem_tail_boxes hx with rfl | hx
                  · exact ⟨fun _ => rfl,
                      fun hnt => by simp [Box.isTextB] at hnt⟩
                  · obtain ⟨h1, h2⟩ :=
                      buildKids_els parent cs rest hrest x hx
                    refine ⟨h1, fun hnt => ?_⟩
                    obtain ⟨c2, hc1, hc2⟩ := h2 hnt
                    exact ⟨c2, List.mem_cons_of_mem c hc1, hc2⟩

/-- C10: every `TextBox` appearing directly among the children of a box
built by `dom_to_box` — the leading-text box and every tail box —
carries the enclosing element itself, not the child element after which
the text appears; every non-text child is the recursively built box of
one of the child elements and carries that child element as its own
source reference. -/
theorem C10_tail_parent_element (e : Element) (b : Box Element)
    (h : domToBox e = .ok b) :
    (∀ x ∈ b.kids, x.isTextB = true → x.el = e) ∧
    (∀ x ∈ b.kids, x.isTextB = false →
      ∃ c, c ∈ e.childElements ∧ domToBox c = .ok x ∧ x.el = c) := by
  obtain ⟨ks, hk, hkids⟩ := domToBox_kids e b h
  rw [hkids]
  have hlead : ∀ x ∈ leadPart e, x.isTextB = true ∧ x.el = e := by
    intro x hx
    unfold leadPart at hx
    by_cases ht : e.text ≠ ""
    · rw [if_pos ht] at hx
      simp only [List.mem_singleton] at hx
      subst hx
      exact ⟨rfl, rfl⟩
    · rw [if_neg ht] at hx
      cases hx
  constructor
  · intro x hx _
    rcases List.mem_append.mp hx with hx | hx
    · exact (hlead x hx).2
    · exact (buildKids_els e e.childElements ks hk x hx).1 ‹_›
  · intro x hx hnt
    rcases List.mem_append.mp hx with hx | hx
    · exact absurd (hlead x hx).1 (by simp [hnt])
    · obtain ⟨c, hc1, hc2⟩ :=
        (buildKids_els e e.childElements ks hk x hx).2 hnt
      exact ⟨c, hc1, hc2, (domToBox_shape c x hc2).2⟩

/-- Witness for C10: a block element with leading text and one inline
child carrying tail text; both `TextBox` children carry the block
element. -/
theorem C10_tail_parent_element_witness :
    (∀ x ∈ (Box.block
        (Element.mk "block" "lead" "" [Element.mk "inline" "" "tl" []])
        [Box.text (Element.mk "block" "lead" "" [Element.mk "inline" "" "tl" []])
          "lead",
         Box.inl (Element.mk "inline" "" "tl" []) [],
         Box.text (Element.mk "block" "lead" "" [Element.mk "inline" "" "tl" []])
          "tl"]).kids,
      x.isTextB = true →
        x.el = Element.mk "block" "lead" "" [Element.mk "inline" "" "tl" []]) ∧
    (∀ x ∈ (Box.block
        (Element.mk "block" "lead" "" [Element.mk "inline" "" "tl" []])
        [Box.text (Element.mk "block" "lead" "" [Element.mk "inline" "" "tl" []])
          "lead",
         Box.inl (Element.mk "inline" "" "tl" []) [],
         Box.text (Element.mk "block" "lead" "" [Element.mk "inline" "" "tl" []])
          "tl"]).kids,
      x.isTextB = false →
        ∃ c, c ∈ (Element.mk "block" "lead" ""
            [Element.mk "inline" "" "tl" []]).childElements ∧
          domToBox c = .ok x ∧ x.el = c) :=
  C10_tail_parent_element _ _
    (by simp +decide [domToBox, buildKids, blockDisplay, inlineDisplay,
      Element.display, Element.tail, Except.bind])

/-! ## C1 (amended): `block_in_inline` leaves trigger-free trees
unchanged -/

theorem lookup_cons_self {β : Type} (k : Nat) (v : β) (l : List (Nat × β)) :
    ((k, v) :: l).lookup k = some v := by
  simp [List.lookup]

theorem lookup_cons_ne {β : Type} {k k2 : Nat} (v : β) (l : List (Nat × β))
    (h : k ≠ k2) : ((k2, v) :: l).lookup k = l.lookup k := by
  simp [List.lookup, show (k == k2) = false from beq_eq_false_iff_ne.mpr h]

theorem list_eq_of_lookup {α : Type} (σ : St α) (r : Nat) (ids : List Nat)
    (h : σ.lists.lookup r = some ids) : σ.list r = ids := by
  simp [St.list, h]

theorem triggerFree_text {α : Type} (e : α) (s : String) :
    triggerFree (Box.text e s) = true := by
  simp [triggerFree, subboxes, Box.isInlineB]

theorem triggerFree_block {α : Type} (e : α) (cs : List (Box α)) :
    triggerFree (Box.block e cs) = cs.all fun c => triggerFree c := by
  simp [triggerFree, subboxes, subboxesList_all, Box.isInlineB]

theorem triggerFree_anon {α : Type} (e : α) (cs : List (Box α)) :
    triggerFree (Box.anon e cs) = cs.all fun c => triggerFree c := by
  simp [triggerFree, subboxes, subboxesList_all, Box.isInlineB]

theorem triggerFree_line {α : Type} (e : α) (cs : List (Box α)) :
    triggerFree (Box.line e cs) = cs.all fun c => triggerFree c := by
  simp [triggerFree, subboxes, subboxesList_all, Box.isInlineB]

theorem triggerFree_inl {α : Type} (e : α) (cs : List (Box α)) :
    triggerFree (Box.inl e cs) =
      ((cs.all fun c => !c.blockLevel) && cs.all fun c => triggerFree c) := by
  simp [triggerFree, subboxes, subboxesList_all, Box.isInlineB, Box.kids]

theorem repL_get {α : Type} {σ : St α} {par : Nat} :
    ∀ (js : List Nat) (cs : List (Box α)), RepL σ par js cs →
      ∀ (j : Nat) (hj : j < js.length),
        ∃ tc, tc ∈ cs ∧ Rep σ (some par) (js.get ⟨j, hj⟩) tc
  | [], cs, _, j, hj => absurd hj (Nat.not_lt_zero j)
  | i :: js, cs, hrep, j, hj => by
      cases hrep with
      | cons _ _ _ c cs2 hrepc hrepl =>
          cases j with
          | zero => exact ⟨c, List.mem_cons_self c cs2, hrepc⟩
          | succ j =>
              obtain ⟨tc, hmem, hr⟩ :=
                repL_get js cs2 hrepl j (Nat.lt_of_succ_lt_succ hj)
              exact ⟨tc, List.mem_cons_of_mem c hmem, hr⟩

theorem extract_rep {α : Type} : ∀ (fuel : Nat) (σ : St α),
    (∀ (p : Option Nat) (i : Nat) (t t' : Box α), Rep σ p i t →
      extract fuel σ i = some t' → t' = t) ∧
    (∀ (par : Nat) (js : List Nat) (cs cs' : List (Box α)),
      RepL σ par js cs → extractList fuel σ js = some cs' → cs' = cs) := by
  intro fuel
  induction fuel with
  | zero =>
      intro σ
      constructor
      · intro p i t t' _ he
        rw [extract] at he
        cases he
      · intro par js cs cs' _ he
        rw [extractList] at he
        cases he
  | succ fuel ih =>
      intro σ
      constructor
      · intro p i t t' hrep he
        rw [extract] at he
        cases hrep with
        | text p i e s hnode =>
            rw [hnode] at he
            cases he
            rfl
        | block p i r e cs hnode hkids =>
            rw [hnode] at he
            replace he : (do
                let ks ← extractList fuel σ (σ.list r)
                some (Box.block e ks)) = some t' := he
            cases hks : extractList fuel σ (σ.list r) with
            | none => rw [hks] at he; cases he
            | some ks =>
                rw [hks] at he
                cases he
                rw [(ih σ).2 i (σ.list r) cs ks hkids hks]
        | anon p i r e cs hnode hkids =>
            rw [hnode] at he
            replace he : (do
                let ks ← extractList fuel σ (σ.list r)
                some (Box.anon e ks)) = some t' := he
            cases hks : extractList fuel σ (σ.list r) with
            | none => rw [hks] at he; cases he
            | some ks =>
                rw [hks] at he
                cases he
                rw [(ih σ).2 i (σ.list r) cs ks hkids hks]
        | line p i r e cs hnode hkids =>
            rw [hnode] at he
            replace he : (do
                let ks ← extractList fuel σ (σ.list r)
                some (Box.line e ks)) = some t' := he
            cases hks : extractList fuel σ (σ.list r) with
            | none => rw [hks] at he; cases he
            | some ks =>
                rw [hks] at he
                cases he
                rw [(ih σ).2 i (σ.list r) cs ks hkids hks]
        | inl p i r e cs hnode hkids =>
            rw [hnode] at he
            replace he : (do
                let ks ← extractList fuel σ (σ.list r)
                some (Box.inl e ks)) = some t' := he
            cases hks : extractList fuel σ (σ.list r) with
            | none => rw [hks] at he; cases he
            | some ks =>
                rw [hks] at he
                cases he
                rw [(ih σ).2 i (σ.list r) cs ks hkids hks]
      · intro par js cs cs' hrep he
        cases hrep with
        | nil =>
            rw [extractList] at he
            cases he
            rfl
        | cons par i js2 c cs2 hrepc hrepl =>
            rw [extractList] at he
            cases hb : extract fuel σ i with
            | none => rw [hb] at he; cases he
            | some b =>
                rw [hb] at he
                replace he : (do
                    let bs ← extractList fuel σ js2
                    some (b :: bs)) = some cs' := he
                cases hbs : extractList fuel σ js2 with
                | none => rw [hbs] at he; cases he
                | some bs =>
                    rw [hbs] at he
                    cases he
                    rw [(ih σ).1 (some par) i c b hrepc hb,
                      (ih σ).2 par js2 cs2 bs hrepl hbs]

theorem finishNode_eq {α : Type} (σ : St α) (i : Nat) (ids : List Nat)
    (n : Node α) (h : σ.node i = some n) :
    finishNode σ i ids =
      ⟨(i, { n with clist := some σ.nextRef }) :: σ.nodes,
        (σ.nextRef, ids) :: σ.lists, σ.nextId, σ.nextRef + 1⟩ := by
  unfold finishNode St.allocList
  simp only []
  have h2 : St.node (⟨σ.nodes, (σ.nextRef, ids) :: σ.lists, σ.nextId,
      σ.nextRef + 1⟩ : St α) i = some n := h
  rw [h2]
  rfl

theorem loadArm_spec {α : Type} (k : NKind)
    (mk2 : α → List (Box α) → Box α)
    (hmk : ∀ (σ2 : St α) (p : Option Nat) (i r : Nat) (e : α)
      (cs : List (Box α)),
      σ2.node i = some ⟨k, e, "", p, some r⟩ →
      RepL σ2 i (σ2.list r) cs → Rep σ2 p i (mk2 e cs))
    (e : α) (cs : List (Box α)) (parent : Option Nat) (σ σ₂ : St α)
    (ids : List Nat)
    (hA : σ.nextId + 1 ≤ σ₂.nextId)
    (hB : σ.nextRef ≤ σ₂.nextRef)
    (hC : ∀ j, j < σ.nextId + 1 → σ₂.node j =
      ((σ.nextId, (⟨k, e, "", parent, none⟩ : Node α)) :: σ.nodes).lookup j)
    (hD : ∀ q, q < σ.nextRef → σ₂.lists.lookup q = σ.lists.lookup q)
    (hE : ∀ σ2 : St α,
      (∀ j, σ.nextId + 1 ≤ j → j < σ₂.nextId → σ2.node j = σ₂.node j) →
      (∀ q, σ.nextRef ≤ q → q < σ₂.nextRef →
        σ2.lists.lookup q = σ₂.lists.lookup q) →
      RepL σ2 σ.nextId ids cs) :
    σ.nextId < (finishNode σ₂ σ.nextId ids).nextId ∧
    σ.nextRef ≤ (finishNode σ₂ σ.nextId ids).nextRef ∧
    (∀ j, j < σ.nextId → (finishNode σ₂ σ.nextId ids).node j = σ.node j) ∧
    (∀ q, q < σ.nextRef →
      (finishNode σ₂ σ.nextId ids).lists.lookup q = σ.lists.lookup q) ∧
    (∀ σ2 : St α,
      (∀ j, σ.nextId ≤ j → j < (finishNode σ₂ σ.nextId ids).nextId →
        σ2.node j = (finishNode σ₂ σ.nextId ids).node j) →
      (∀ q, σ.nextRef ≤ q → q < (finishNode σ₂ σ.nextId ids).nextRef →
        σ2.lists.lookup q = (finishNode σ₂ σ.nextId ids).lists.lookup q) →
      Rep σ2 parent σ.nextId (mk2 e cs)) := by
  have hnode2 : σ₂.node σ.nextId =
      some (⟨k, e, "", parent, none⟩ : Node α) := by
    rw [hC σ.nextId (Nat.lt_succ_self _)]
    exact lookup_cons_self σ.nextId _ σ.nodes
  rw [finishNode_eq σ₂ σ.nextId ids _ hnode2]
  refine ⟨?_, ?_, ?_, ?_, ?_⟩
  · show σ.nextId < σ₂.nextId
    omega
  · show σ.nextRef ≤ σ₂.nextRef + 1
    omega
  · intro j hj
    show ((σ.nextId, (⟨k, e, "", parent, some σ₂.nextRef⟩ : Node α)) ::
        σ₂.nodes).lookup j = σ.node j
    rw [lookup_cons_ne _ _ (by omega : j ≠ σ.nextId)]
    have := hC j (by omega)
    rw [show σ₂.nodes.lookup j = σ₂.node j from rfl, this,
      lookup_cons_ne _ _ (by omega : j ≠ σ.nextId)]
    rfl
  · intro q hq
    show ((σ₂.nextRef, ids) :: σ₂.lists).lookup q = σ.lists.lookup q
    rw [lookup_cons_ne _ _ (by omega : q ≠ σ₂.nextRef)]
    exact hD q hq
  · intro σ2 hN hR
    have hni : σ2.node σ.nextId =
        some (⟨k, e, "", parent, some σ₂.nextRef⟩ : Node α) := by
      rw [hN σ.nextId (Nat.le_refl _) (by show σ.nextId < σ₂.nextId; omega)]
      show ((σ.nextId, (⟨k, e, "", parent, some σ₂.nextRef⟩ : Node α)) ::
          σ₂.nodes).lookup σ.nextId = _
      exact lookup_cons_self σ.nextId _ σ₂.nodes
    have hlr : σ2.list σ₂.nextRef = ids := by
      apply list_eq_of_lookup
      rw [hR σ₂.nextRef hB (by show σ₂.nextRef < σ₂.nextRef + 1; omega)]
      exact lookup_cons_self σ₂.nextRef ids σ₂.lists
    have hrl : RepL σ2 σ.nextId ids cs := by
      refine hE σ2 ?_ ?_
      · intro j hj1 hj2
        rw [hN j (by omega) (by show j < σ₂.nextId; omega)]
        show ((σ.nextId, (⟨k, e, "", parent, some σ₂.nextRef⟩ : Node α)) ::
            σ₂.nodes).lookup j = σ₂.node j
        rw [lookup_cons_ne _ _ (by omega : j ≠ σ.nextId)]
        rfl
      · intro q hq1 hq2
        rw [hR q hq1 (by show q < σ₂.nextRef + 1; omega)]
        show ((σ₂.nextRef, ids) :: σ₂.lists).lookup q = σ₂.lists.lookup q
        rw [lookup_cons_ne _ _ (by omega : q ≠ σ₂.nextRef)]
    exact hmk σ2 parent σ.nextId σ₂.nextRef e cs hni
      (by rw [hlr]; exact hrl)

mutual

theorem loadBox_spec {α : Type} : ∀ (t : Box α) (parent : Option Nat)
    (σ σ' : St α) (i : Nat), loadBox parent t σ = (σ', i) →
    i = σ.nextId ∧ σ.nextId < σ'.nextId ∧ σ.nextRef ≤ σ'.nextRef ∧
    (∀ j, j < σ.nextId → σ'.node j = σ.node j) ∧
    (∀ q, q < σ.nextRef → σ'.lists.lookup q = σ.lists.lookup q) ∧
    (∀ σ2 : St α,
      (∀ j, σ.nextId ≤ j → j < σ'.nextId → σ2.node j = σ'.node j) →
      (∀ q, σ.nextRef ≤ q → q < σ'.nextRef →
        σ2.lists.lookup q = σ'.lists.lookup q) →
      Rep σ2 parent i t)
  | .text e s, parent, σ, σ', i, h => by
      rw [loadBox] at h
      cases h
      refine ⟨rfl, Nat.lt_succ_self _, Nat.le_refl _, ?_, ?_, ?_⟩
      · intro j hj
        show ((σ.nextId, (⟨.textN, e, s, parent, none⟩ : Node α)) ::
            σ.nodes).lookup j = σ.node j
        rw [lookup_cons_ne _ _ (by omega : j ≠ σ.nextId)]
        rfl
      · intro q _
        rfl
      · intro σ2 hN hR
        apply Rep.text
        rw [hN σ.nextId (Nat.le_refl _) (Nat.lt_succ_self _)]
        show ((σ.nextId, (⟨.textN, e, s, parent, none⟩ : Node α)) ::
            σ.nodes).lookup σ.nextId = _
        exact lookup_cons_self σ.nextId _ σ.nodes
  | .block e cs, parent, σ, σ', i, h => by
      rw [loadBox] at h
      have hst : startNode σ .blockN e parent =
          (⟨(σ.nextId, ⟨.blockN, e, "", parent, none⟩) :: σ.nodes, σ.lists,
            σ.nextId + 1, σ.nextRef⟩, σ.nextId) := rfl
      simp only [hst] at h
      cases hk : loadKids (some σ.nextId) cs
          ⟨(σ.nextId, ⟨.blockN, e, "", parent, none⟩) :: σ.nodes, σ.lists,
            σ.nextId + 1, σ.nextRef⟩ with
      | mk σ₂ ids =>
          simp only [hk] at h
          cases h
          obtain ⟨hA, hB, hC, hD, hE⟩ := loadKids_spec cs σ.nextId _ σ₂ ids hk
          exact ⟨rfl, loadArm_spec .blockN Box.block (fun σ2 => @Rep.block _ σ2) e cs parent
            σ σ₂ ids hA hB hC hD hE⟩
  | .anon e cs, parent, σ, σ', i, h => by
      rw [loadBox] at h
      have hst : startNode σ .anonN e parent =
          (⟨(σ.nextId, ⟨.anonN, e, "", parent, none⟩) :: σ.nodes, σ.lists,
            σ.nextId + 1, σ.nextRef⟩, σ.nextId) := rfl
      simp only [hst] at h
      cases hk : loadKids (some σ.nextId) cs
          ⟨(σ.nextId, ⟨.anonN, e, "", parent, none⟩) :: σ.nodes, σ.lists,
            σ.nextId + 1, σ.nextRef⟩ with
      | mk σ₂ ids =>
          simp only [hk] at h
          cases h
          obtain ⟨hA, hB, hC, hD, hE⟩ := loadKids_spec cs σ.nextId _ σ₂ ids hk
          exact ⟨rfl, loadArm_spec .anonN Box.anon (fun σ2 => @Rep.anon _ σ2) e cs parent
            σ σ₂ ids hA hB hC hD hE⟩
  | .line e cs, parent, σ, σ', i, h => by
      rw [loadBox] at h
      have hst : startNode σ .lineN e parent =
          (⟨(σ.nextId, ⟨.lineN, e, "", parent, none⟩) :: σ.nodes, σ.lists,
            σ.nextId + 1, σ.nextRef⟩, σ.nextId) := rfl
      simp only [hst] at h
      cases hk : loadKids (some σ.nextId) cs
          ⟨(σ.nextId, ⟨.lineN, e, "", parent, none⟩) :: σ.nodes, σ.lists,
            σ.nextId + 1, σ.nextRef⟩ with
      | mk σ₂ ids =>
          simp only [hk] at h
          cases h
          obtain ⟨hA, hB, hC, hD, hE⟩ := loadKids_spec cs σ.nextId _ σ₂ ids hk
          exact ⟨rfl, loadArm_spec .lineN Box.line (fun σ2 => @Rep.line _ σ2) e cs parent
            σ σ₂ ids hA hB hC hD hE⟩
  | .inl e cs, parent, σ, σ', i, h => by
      rw [loadBox] at h
      have hst : startNode σ .inlN e parent =
          (⟨(σ.nextId, ⟨.inlN, e, "", parent, none⟩) :: σ.nodes, σ.lists,
            σ.nextId + 1, σ.nextRef⟩, σ.nextId) := rfl
      simp only [hst] at h
      cases hk : loadKids (some σ.nextId) cs
          ⟨(σ.nextId, ⟨.inlN, e, "", parent, none⟩) :: σ.nodes, σ.lists,
            σ.nextId + 1, σ.nextRef⟩ with
      | mk σ₂ ids =>
          simp only [hk] at h
          cases h
          obtain ⟨hA, hB, hC, hD, hE⟩ := loadKids_spec cs σ.nextId _ σ₂ ids hk
          exact ⟨rfl, loadArm_spec .inlN Box.inl (fun σ2 => @Rep.inl _ σ2) e cs parent
            σ σ₂ ids hA hB hC hD hE⟩

theorem loadKids_spec {α : Type} : ∀ (cs : List (Box α)) (par : Nat)
    (σ σ' : St α) (js : List Nat), loadKids (some par) cs σ = (σ', js) →
    σ.nextId ≤ σ'.nextId ∧ σ.nextRef ≤ σ'.nextRef ∧
    (∀ j, j < σ.nextId → σ'.node j = σ.node j) ∧
    (∀ q, q < σ.nextRef → σ'.lists.lookup q = σ.lists.lookup q) ∧
    (∀ σ2 : St α,
      (∀ j, σ.nextId ≤ j → j < σ'.nextId → σ2.node j = σ'.node j) →
      (∀ q, σ.nextRef ≤ q → q < σ'.nextRef →
        σ2.lists.lookup q = σ'.lists.lookup q) →
      RepL σ2 par js cs)
  | [], par, σ, σ', js, h => by
      rw [loadKids] at h
      cases h
      exact ⟨Nat.le_refl _, Nat.le_refl _, fun j _ => rfl, fun q _ => rfl,
        fun σ2 _ _ => RepL.nil par⟩
  | c :: cs, par, σ, σ', js, h => by
      rw [loadKids] at h
      cases hb : loadBox (some par) c σ with
      | mk σ₁ i =>
          simp only [hb] at h
          cases hk : loadKids (some par) cs σ₁ with
          | mk σ₂ js2 =>
              simp only [hk] at h
              injection h with h1 h2
              subst h1
              subst h2
              obtain ⟨hi, hA1, hB1, hC1, hD1, hE1⟩ :=
                loadBox_spec c (some par) σ σ₁ i hb
              obtain ⟨hA2, hB2, hC2, hD2, hE2⟩ :=
                loadKids_spec cs par σ₁ σ₂ js2 hk
              refine ⟨by omega, by omega, ?_, ?_, ?_⟩
              · intro j hj
                rw [hC2 j (by omega), hC1 j hj]
              · intro q hq
                rw [hD2 q (by omega), hD1 q hq]
              · intro σ2 hN hR
                refine RepL.cons par i js2 c cs ?_ ?_
                · refine hE1 σ2 ?_ ?_
                  · intro j hj1 hj2
                    rw [hN j hj1 (by omega), hC2 j hj2]
                  · intro q hq1 hq2
                    rw [hR q hq1 (by omega), hD2 q hq2]
                · refine hE2 σ2 ?_ ?_
                  · intro j hj1 hj2
                    exact hN j (by omega) hj2
                  · intro q hq1 hq2
                    exact hR q (by omega) hq2

end

theorem pure_ok_inj {ε β : Type} {a b : β}
    (h : (pure a : Except ε β) = .ok b) : b = a := by
  cases h
  rfl

theorem bii_eq_noTrigger {α : Type} (fuel : Nat) (σ : St α) (i : Nat)
    (hnotrig : ¬((σ.kindOf i).isBlockLevel = true ∧
      ∃ p, σ.parentOf i = some p ∧ σ.kindOf p = .inlN)) :
    bii (fuel + 1) σ i =
      match (σ.node i).bind Node.clist with
      | some r => biiLoop fuel σ r 0
      | none => pure σ := by
  rw [bii]
  split
  · rename_i hbl
    split
    · rename_i p hp
      rw [if_neg (fun hc => hnotrig ⟨hbl, p, hp, hc⟩)]
      rfl
    · rfl
  · rfl

theorem bii_nomut {α : Type} : ∀ (fuel : Nat) (σ : St α),
    (∀ (p : Option Nat) (i : Nat) (t : Box α) (σF : St α),
      Rep σ p i t → triggerFree t = true →
      (p = none ∨ ∃ par, p = some par ∧
        (σ.kindOf par = .inlN → t.blockLevel = false)) →
      bii fuel σ i = .ok σF → σF = σ) ∧
    (∀ (par r j : Nat) (cs : List (Box α)) (σF : St α),
      RepL σ par (σ.list r) cs →
      (σ.kindOf par = .inlN → (cs.all fun c => !c.blockLevel) = true) →
      (cs.all fun c => triggerFree c) = true →
      biiLoop fuel σ r j = .ok σF → σF = σ) := by
  intro fuel
  induction fuel with
  | zero =>
      intro σ
      constructor
      · intro p i t σF _ _ _ h
        rw [bii] at h
        cases h
      · intro par r j cs σF _ _ _ h
        rw [biiLoop] at h
        cases h
  | succ fuel ih =>
      intro σ
      constructor
      · intro p i t σF hrep htf hpc h
        cases hrep with
        | text p i e s hnode =>
            have hk : σ.kindOf i = .textN := by simp [St.kindOf, hnode]
            rw [bii_eq_noTrigger fuel σ i
              (fun hc => absurd (hk ▸ hc.1) (by decide))] at h
            rw [hnode] at h
            exact pure_ok_inj h
        | line p i r e cs hnode hkids =>
            have hk : σ.kindOf i = .lineN := by simp [St.kindOf, hnode]
            rw [bii_eq_noTrigger fuel σ i
              (fun hc => absurd (hk ▸ hc.1) (by decide))] at h
            rw [hnode] at h
            replace h : biiLoop fuel σ r 0 = .ok σF := h
            rw [triggerFree_line] at htf
            exact (ih σ).2 i r 0 cs σF hkids
              (fun hinl => absurd (hk.symm.trans hinl) (by decide)) htf h
        | inl p i r e cs hnode hkids =>
            have hk : σ.kindOf i = .inlN := by simp [St.kindOf, hnode]
            rw [bii_eq_noTrigger fuel σ i
              (fun hc => absurd (hk ▸ hc.1) (by decide))] at h
            rw [hnode] at h
            replace h : biiLoop fuel σ r 0 = .ok σF := h
            rw [triggerFree_inl, Bool.and_eq_true] at htf
            exact (ih σ).2 i r 0 cs σF hkids (fun _ => htf.1) htf.2 h
        | block p i r e cs hnode hkids =>
            have hk : σ.kindOf i = .blockN := by simp [St.kindOf, hnode]
            have hpar : σ.parentOf i = p := by simp [St.parentOf, hnode]
            have hnt : ¬((σ.kindOf i).isBlockLevel = true ∧
                ∃ p2, σ.parentOf i = some p2 ∧ σ.kindOf p2 = .inlN) := by
              rintro ⟨_, p2, hp2, hinl⟩
              rw [hpar] at hp2
              rcases hpc with rfl | ⟨par, rfl, hcond⟩
              · cases hp2
              · injection hp2 with hpe
                subst hpe
                have hbl2 := hcond hinl
                simp [Box.blockLevel] at hbl2
            rw [bii_eq_noTrigger fuel σ i hnt] at h
            rw [hnode] at h
            replace h : biiLoop fuel σ r 0 = .ok σF := h
            rw [triggerFree_block] at htf
            exact (ih σ).2 i r 0 cs σF hkids
              (fun hinl => absurd (hk.symm.trans hinl) (by decide)) htf h
        | anon p i r e cs hnode hkids =>
            have hk : σ.kindOf i = .anonN := by simp [St.kindOf, hnode]
            have hpar : σ.parentOf i = p := by simp [St.parentOf, hnode]
            have hnt : ¬((σ.kindOf i).isBlockLevel = true ∧
                ∃ p2, σ.parentOf i = some p2 ∧ σ.kindOf p2 = .inlN) := by
              rintro ⟨_, p2, hp2, hinl⟩
              rw [hpar] at hp2
              rcases hpc with rfl | ⟨par, rfl, hcond⟩
              · cases hp2
              · injection hp2 with hpe
                subst hpe
                have hbl2 := hcond hinl
                simp [Box.blockLevel] at hbl2
            rw [bii_eq_noTrigger fuel σ i hnt] at h
            rw [hnode] at h
            replace h : biiLoop fuel σ r 0 = .ok σF := h
            rw [triggerFree_anon] at htf
            exact (ih σ).2 i r 0 cs σF hkids
              (fun hinl => absurd (hk.symm.trans hinl) (by decide)) htf h
      · intro par r j cs σF hrep hbl htf h
        rw [biiLoop] at h
        split at h
        · rename_i hj
          obtain ⟨tc, htcmem, hrepc⟩ := repL_get (σ.list r) cs hrep j hj
          cases hb : bii fuel σ ((σ.list r).get ⟨j, hj⟩) with
          | error e => rw [hb] at h; cases h
          | ok σ2 =>
              rw [hb] at h
              replace h : biiLoop fuel σ2 r (j + 1) = .ok σF := h
              have htc : triggerFree tc = true :=
                List.all_eq_true.mp htf tc htcmem
              have hσ2 : σ2 = σ :=
                (ih σ).1 (some par) _ tc σ2 hrepc htc
                  (Or.inr ⟨par, rfl, fun hinl => by
                    have hb2 := List.all_eq_true.mp (hbl hinl) tc htcmem
                    simpa using hb2⟩) hb
              rw [hσ2] at h
              exact (ih σ).2 par r (j + 1) cs σF hrep hbl htf h
        · exact pure_ok_inj h

/-- C1 (amended): the split surgery of `block_in_inline` only fires on a
block-level box whose *immediate* parent is inline-level; on a tree
without such a box (`triggerFree`) the pass — whatever the fuel —
returns the tree unchanged, so a block-level box nested below an
inline-level box behind an intervening `LineBox` survives the pass. -/
theorem C1_trigger_free_noop {α : Type} (fuel : Nat) (t t' : Box α)
    (htf : triggerFree t = true) (h : blockInInline fuel t = .ok t') :
    t' = t := by
  unfold blockInInline at h
  cases hload : loadBox none t St.empty with
  | mk σ0 root =>
      rw [hload] at h
      have hrep : Rep σ0 none root t := by
        obtain ⟨_, _, _, _, _, hcl⟩ :=
          loadBox_spec t none St.empty σ0 root hload
        exact hcl σ0 (fun j _ _ => rfl) (fun q _ _ => rfl)
      cases hb : bii fuel σ0 root with
      | error e => simp only [hb] at h; cases h
      | ok σf =>
          simp only [hb] at h
          have hσf : σf = σ0 :=
            (bii_nomut fuel σ0).1 none root t σf hrep htf (Or.inl rfl) hb
          rw [hσf] at h
          cases hx : extract fuel σ0 root with
          | none => rw [hx] at h; cases h
          | some t2 =>
              rw [hx] at h
              injection h with h2
              rw [← h2]
              exact (extract_rep fuel σ0).1 none root t t2 hrep hx

/-- Witness for C1 (amended) at a concrete trigger-free input. -/
theorem C1_trigger_free_noop_witness :
    triggerFree (Box.block (0 : Nat) [.line 1 [.text 2 "a"]]) = true ∧
    Box.block (0 : Nat) [.line 1 [.text 2 "a"]] =
      Box.block (0 : Nat) [.line 1 [.text 2 "a"]] :=
  ⟨by decide,
   C1_trigger_free_noop 9 (Box.block 0 [.line 1 [.text 2 "a"]])
     (Box.block 0 [.line 1 [.text 2 "a"]]) (by decide) (by decide)⟩

end Weasy
